import Mathlib

/-!
# Reflection parsing in clang-reflect

A shallow embedding of `lib/Parse/ParseReflect.cpp` (the parser entry points
`Parser::ParseCXXReflectExpression` and `Parser::ParseReflectionTrait`) and of
the two library tests `test/CXX/meta/iterator.cpp` and
`test/CXX/meta/to_string.cpp`.

The parser is modelled by explicit state passing: the state holds the tokens
not yet consumed and a log of every diagnostic the parser emits and of every
call it makes into a collaborator (semantic actions and sub-parsers).  The
collaborators themselves are parameters of the development.
-/

namespace ClangReflect

/-! ## Tokens and parser state -/

abbrev SourceLocation := Nat
abbrev IdentifierInfo := String

/-- Token kinds (`tok::TokenKind`); `kw s` is the keyword token `tok::kw_s`. -/
inductive TokenKind
  | eof
  | identifier
  | numeric_constant
  | l_paren
  | r_paren
  | comma
  | semi
  | coloncolon
  | kw_reflexpr
  | kw (Spelling : String)
  deriving DecidableEq, Repr

structure Token where
  kind : TokenKind
  loc : SourceLocation
  ident : IdentifierInfo
  deriving DecidableEq, Repr

/-- Diagnostic identifiers used by the reflection parser. -/
inductive DiagID
  | err_expected_lparen_after
  | err_expected
  | note_matching
  | err_type_trait_arity
  deriving DecidableEq, Repr

structure CXXScopeSpec where
  isInvalid : Bool
  scope : List IdentifierInfo
  deriving DecidableEq, Repr

structure DeclSpec where
  spec : Nat
  deriving DecidableEq, Repr

structure Declarator where
  DS : DeclSpec
  isInvalidType : Bool
  ty : Nat
  deriving DecidableEq, Repr

abbrev Expr := Nat

inductive ExprResult
  | ExprError
  | Expr (e : Expr)
  deriving DecidableEq, Repr

/-- Trait identifiers: `URT_K` for a unary trait, `BRT_K` for a binary one. -/
inductive ReflectionTrait
  | URT (K : String)
  | BRT (K : String)
  deriving DecidableEq, Repr

/-- Modelled from the spec: one entry of the static keyword table of
`clang/Basic/TokenKinds.def` (not among the sources), which lists a keyword
spelling with its trait id either as a unary or as a binary trait. -/
inductive TraitEntry
  | REFLECTION_TRAIT_1 (Spelling K : String)
  | REFLECTION_TRAIT_2 (Spelling K : String)
  deriving DecidableEq, Repr

/-- What the parser does that an observer can see: the diagnostics it emits
and its calls into collaborators.  `Kind` and `Entity` of
`ActOnCXXReflectExpression` are `none` when the local variable passed was
never assigned. -/
inductive Event
  | Diag (Loc : SourceLocation) (ID : DiagID) (Args : List Int) (Ranges : List SourceLocation)
  | ParseOptionalCXXScopeSpecifier
  | ActOnReflectedId (SS : CXXScopeSpec) (IdLoc : SourceLocation) (Id : IdentifierInfo)
  | isCXXTypeId
  | ParseSpecifierQualifierList
  | ParseDeclarator (D : Declarator)
  | ActOnReflectedType (D : Declarator)
  | ActOnCXXReflectExpression (KWLoc : SourceLocation) (Kind Entity : Option Nat)
      (LOpen LClose : SourceLocation)
  | ParseConstantExpression
  | ActOnReflectionTrait (Loc : SourceLocation) (Trait : ReflectionTrait)
      (Args : List Expr) (RPLoc : SourceLocation)
  deriving DecidableEq, Repr

/-- Parser state: `Tok` is the head of `toks`; `log` grows at its end. -/
structure Parser where
  toks : List Token
  log : List Event
  deriving DecidableEq, Repr

/-- The collaborators of the reflection parser: sub-parsers report what they
produce and how many tokens they consume, semantic actions report their
result (`none` for a `false` return of an action with out-parameters). -/
structure Collaborators where
  ParseOptionalCXXScopeSpecifier : List Token → CXXScopeSpec × Nat
  ActOnReflectedId : CXXScopeSpec → SourceLocation → IdentifierInfo → Option (Nat × Nat)
  isCXXTypeId : List Token → Bool
  ParseSpecifierQualifierList : List Token → DeclSpec × Nat
  ParseDeclarator : DeclSpec → List Token → Declarator × Nat
  ActOnReflectedType : Declarator → Option (Nat × Nat)
  ActOnCXXReflectExpression :
    SourceLocation → Option Nat → Option Nat → SourceLocation → SourceLocation → ExprResult
  ParseConstantExpression : List Token → ExprResult × Nat
  ActOnReflectionTrait :
    SourceLocation → ReflectionTrait → List Expr → SourceLocation → ExprResult

def eofToken : Token := { kind := TokenKind.eof, loc := 0, ident := "" }

/-- The current token `Tok`; past the last token the lexer yields `eof`. -/
def Parser.Tok (P : Parser) : Token := P.toks.headD eofToken

def Parser.emit (P : Parser) (e : Event) : Parser := { P with log := P.log ++ [e] }

def Parser.advance (P : Parser) (n : Nat) : Parser := { P with toks := P.toks.drop n }

/-- The parser's `ConsumeToken()`: returns the location of the consumed token. -/
def ConsumeToken (P : Parser) : SourceLocation × Parser := (P.Tok.loc, P.advance 1)

/-- The parser's `TryConsumeToken(Expected)`: consumes the current token when
it is of the expected kind. -/
def TryConsumeToken (Expected : TokenKind) (P : Parser) : Bool × Parser :=
  if P.Tok.kind = Expected then (true, P.advance 1) else (false, P)

/-! ## BalancedDelimiterTracker -/

/-- Modelled from the spec: the state of a `BalancedDelimiterTracker` for
parentheses, the locations of the opening and of the closing one. -/
structure BalancedDelimiterTracker where
  LOpen : SourceLocation
  LClose : SourceLocation
  deriving DecidableEq, Repr

/-- Modelled from the spec: `Parser::SkipUntil(tok::r_paren, StopBeforeMatch)`
(lib/Parse/Parser.cpp is not among the sources).  Skips forward, balancing
nested parentheses, and stops in front of the closing parenthesis that matches
the tracker's opening one, or at the end of the tokens.  `depth` counts the
parentheses opened while skipping. -/
def SkipUntil : Nat → List Token → List Token
  | _, [] => []
  | 0, t :: ts =>
    if t.kind = TokenKind.r_paren then t :: ts
    else if t.kind = TokenKind.l_paren then SkipUntil 1 ts
    else SkipUntil 0 ts
  | depth + 1, t :: ts =>
    if t.kind = TokenKind.r_paren then SkipUntil depth ts
    else if t.kind = TokenKind.l_paren then SkipUntil (depth + 2) ts
    else SkipUntil (depth + 1) ts

/-- Modelled from the spec: `BalancedDelimiterTracker::expectAndConsume`
(clang/Parse/RAIIObjectsForParser.h is not among the sources).  Returns `true`
on error: the opening parenthesis is missing and a diagnostic is emitted. -/
def BalancedDelimiterTracker.expectAndConsume (T : BalancedDelimiterTracker) (P : Parser)
    (ID : DiagID) : Bool × BalancedDelimiterTracker × Parser :=
  if P.Tok.kind = TokenKind.l_paren then
    (false, { T with LOpen := P.Tok.loc }, P.advance 1)
  else
    (true, { T with LOpen := P.Tok.loc }, P.emit (Event.Diag P.Tok.loc ID [] []))

/-- Modelled from the spec: `BalancedDelimiterTracker::consumeClose`.  Returns
`false` after consuming the closing parenthesis; otherwise diagnoses the
missing parenthesis, recovers by skipping to the matching one (consuming it
when it is there) and returns `true`. -/
def BalancedDelimiterTracker.consumeClose (T : BalancedDelimiterTracker) (P : Parser) :
    Bool × BalancedDelimiterTracker × Parser :=
  if P.Tok.kind = TokenKind.r_paren then
    (false, { T with LClose := P.Tok.loc }, P.advance 1)
  else
    let P1 := (P.emit (Event.Diag P.Tok.loc DiagID.err_expected [] [])).emit
      (Event.Diag T.LOpen DiagID.note_matching [] [])
    let P2 : Parser := { P1 with toks := SkipUntil 0 P1.toks }
    if P2.Tok.kind = TokenKind.r_paren then
      (true, { T with LClose := P2.Tok.loc }, P2.advance 1)
    else
      (true, T, P2)

/-- Modelled from the spec: `BalancedDelimiterTracker::skipToEnd`, the
skip-to-matching-delimiter recovery. -/
def BalancedDelimiterTracker.skipToEnd (T : BalancedDelimiterTracker) (P : Parser) :
    BalancedDelimiterTracker × Parser :=
  let r := T.consumeClose { P with toks := SkipUntil 0 P.toks }
  (r.2.1, r.2.2)

/-! ## ParseCXXReflectExpression (ParseReflect.cpp, lines 29-78) -/

/-- How the operand part (lines 45-70) leaves the function: by one of the
early `return ExprError()` statements, or by falling through to line 72 with
the current contents of the locals `Kind` and `Entity`. -/
inductive OperandResult
  | Return (P : Parser)
  | Continue (Kind Entity : Option Nat) (P : Parser)
  deriving DecidableEq, Repr

/-- Lines 61-70: the type-id alternative, entered after `isCXXTypeId` held. -/
def ParseReflectedTypeId (c : Collaborators) (P : Parser) : OperandResult :=
  let DS := c.ParseSpecifierQualifierList P.toks
  let P := (P.emit Event.ParseSpecifierQualifierList).advance DS.2
  let D := c.ParseDeclarator DS.1 P.toks
  let P := (P.emit (Event.ParseDeclarator D.1)).advance D.2
  if D.1.isInvalidType then OperandResult.Return P
  else
    match c.ActOnReflectedType D.1 with
    | none => OperandResult.Return (P.emit (Event.ActOnReflectedType D.1))
    | some (Kind, Entity) =>
      OperandResult.Continue (some Kind) (some Entity) (P.emit (Event.ActOnReflectedType D.1))

/-- Lines 37-70: the scope specifier and the choice between the identifier
and the type-id alternative.  `Kind` and `Entity` start unassigned. -/
def ParseReflectedOperand (c : Collaborators) (P : Parser) : OperandResult :=
  let SS := c.ParseOptionalCXXScopeSpecifier P.toks
  let P := (P.emit Event.ParseOptionalCXXScopeSpecifier).advance SS.2
  if !SS.1.isInvalid && P.Tok.kind = TokenKind.identifier then
    let Id := P.Tok.ident
    let (IdLoc, P) := ConsumeToken P
    match c.ActOnReflectedId SS.1 IdLoc Id with
    | none => OperandResult.Return (P.emit (Event.ActOnReflectedId SS.1 IdLoc Id))
    | some (Kind, Entity) =>
      OperandResult.Continue (some Kind) (some Entity)
        (P.emit (Event.ActOnReflectedId SS.1 IdLoc Id))
  else if c.isCXXTypeId P.toks then
    ParseReflectedTypeId c (P.emit Event.isCXXTypeId)
  else
    OperandResult.Continue none none (P.emit Event.isCXXTypeId)

/-- The function `Parser::ParseCXXReflectExpression`, entered with `Tok` at `reflexpr`. -/
def ParseCXXReflectExpression (c : Collaborators) (P : Parser) : ExprResult × Parser :=
  let (KWLoc, P) := ConsumeToken P
  let T : BalancedDelimiterTracker := { LOpen := 0, LClose := 0 }
  let open_ := T.expectAndConsume P DiagID.err_expected_lparen_after
  if open_.1 then (ExprResult.ExprError, open_.2.2)
  else
    match ParseReflectedOperand c open_.2.2 with
    | OperandResult.Return P => (ExprResult.ExprError, P)
    | OperandResult.Continue Kind Entity P =>
      let close := open_.2.1.consumeClose P
      if close.1 then (ExprResult.ExprError, close.2.2)
      else
        (c.ActOnCXXReflectExpression KWLoc Kind Entity close.2.1.LOpen close.2.1.LClose,
          close.2.2.emit
            (Event.ActOnCXXReflectExpression KWLoc Kind Entity close.2.1.LOpen close.2.1.LClose))

/-! ## Reflection traits (ParseReflect.cpp, lines 80-146) -/

/-- Modelled from the spec: the expansion of a table entry to
`REFLECTION_TRAIT(N, Spelling, K)`, the required argument count `N` being 1
for the unary and 2 for the binary table: `TokenKinds.def` defines `REFLECTION_TRAIT_1(I,K)` as `REFLECTION_TRAIT(1,I,K)`
and `REFLECTION_TRAIT_2(I,K)` as `REFLECTION_TRAIT(2,I,K)`. -/
def TraitEntry.REFLECTION_TRAIT : TraitEntry → Nat × String × String
  | .REFLECTION_TRAIT_1 Spelling K => (1, Spelling, K)
  | .REFLECTION_TRAIT_2 Spelling K => (2, Spelling, K)

/-- The function `ReflectionTraitKind`: the switch over the entries of `TokenKinds.def`;
`none` is the `llvm_unreachable` default. -/
def ReflectionTraitKind : List TraitEntry → TokenKind → Option ReflectionTrait
  | [], _ => none
  | .REFLECTION_TRAIT_1 Spelling K :: defs, kind =>
    if kind = TokenKind.kw Spelling then some (ReflectionTrait.URT K)
    else ReflectionTraitKind defs kind
  | .REFLECTION_TRAIT_2 Spelling K :: defs, kind =>
    if kind = TokenKind.kw Spelling then some (ReflectionTrait.BRT K)
    else ReflectionTraitKind defs kind

/-- The function `ReflectionTraitArity`: the same switch, returning `N`. -/
def ReflectionTraitArity : List TraitEntry → TokenKind → Option Nat
  | [], _ => none
  | entry :: defs, kind =>
    if kind = TokenKind.kw entry.REFLECTION_TRAIT.2.1 then some entry.REFLECTION_TRAIT.1
    else ReflectionTraitArity defs kind

/-- How the argument loop (lines 124-131) ends.  `Commas` counts the
successful `TryConsumeToken(tok::comma)` calls; it is bookkeeping of the
model, the source keeps no such counter. -/
inductive ArgsResult
  | OutOfFuel
  | Invalid (P : Parser)
  | Done (Args : List Expr) (Commas : Nat) (P : Parser)
  deriving DecidableEq, Repr

/-- Lines 124-131: `do { ... } while (TryConsumeToken(tok::comma))`.  Each
further iteration has consumed a comma, so `fuel` above the number of tokens
is never used up. -/
def ParseReflectionTraitArgs (c : Collaborators) :
    Nat → Parser → List Expr → Nat → ArgsResult
  | 0, _, _, _ => ArgsResult.OutOfFuel
  | fuel + 1, P, Args, Commas =>
    let E := c.ParseConstantExpression P.toks
    let P := (P.emit Event.ParseConstantExpression).advance E.2
    match E.1 with
    | ExprResult.ExprError => ArgsResult.Invalid P
    | ExprResult.Expr e =>
      match TryConsumeToken TokenKind.comma P with
      | (true, P) => ParseReflectionTraitArgs c fuel P (Args ++ [e]) (Commas + 1)
      | (false, P) => ArgsResult.Done (Args ++ [e]) Commas P

/-- The function `Parser::ParseReflectionTrait`, entered with `Tok` at the trait keyword.
`none` stands for no defined result: `llvm_unreachable` was reached. -/
def ParseReflectionTrait (c : Collaborators) (defs : List TraitEntry) (P : Parser) :
    Option (ExprResult × Parser) :=
  let Kind := P.Tok.kind
  let (Loc, P) := ConsumeToken P
  let Parens : BalancedDelimiterTracker := { LOpen := 0, LClose := 0 }
  let open_ := Parens.expectAndConsume P DiagID.err_expected
  if open_.1 then some (ExprResult.ExprError, open_.2.2)
  else
    match ParseReflectionTraitArgs c (open_.2.2.toks.length + 1) open_.2.2 [] 0 with
    | ArgsResult.OutOfFuel => none
    | ArgsResult.Invalid P => some (ExprResult.ExprError, (open_.2.1.skipToEnd P).2)
    | ArgsResult.Done Args _ P =>
      let close := open_.2.1.consumeClose P
      if close.1 then some (ExprResult.ExprError, close.2.2)
      else
        let RPLoc := close.2.1.LClose
        match ReflectionTraitArity defs Kind with
        | none => none
        | some Arity =>
          if Args.length ≠ Arity then
            some (ExprResult.ExprError,
              close.2.2.emit (Event.Diag RPLoc DiagID.err_type_trait_arity
                [(Arity : Int), 0, if Arity > 1 then 1 else 0, (Args.length : Int)] [Loc]))
          else
            match ReflectionTraitKind defs Kind with
            | none => none
            | some Trait =>
              some (c.ActOnReflectionTrait Loc Trait Args RPLoc,
                close.2.2.emit (Event.ActOnReflectionTrait Loc Trait Args RPLoc))

/-! ## Argument lists, as the grammar of a trait invocation describes them -/

/-- The relation `ArgList c toks Args rest`: the tokens `toks` begin with the constant
expressions `Args`, in source order, separated by single commas, and `rest`,
which does not begin with a comma, follows the last of them. -/
inductive ArgList (c : Collaborators) : List Token → List Expr → List Token → Prop
  | last (toks : List Token) (e : Expr) (n : Nat) :
      c.ParseConstantExpression toks = (ExprResult.Expr e, n) →
      ((toks.drop n).headD eofToken).kind ≠ TokenKind.comma →
      ArgList c toks [e] (toks.drop n)
  | more (toks : List Token) (e : Expr) (n : Nat) (Args : List Expr) (rest : List Token) :
      c.ParseConstantExpression toks = (ExprResult.Expr e, n) →
      ((toks.drop n).headD eofToken).kind = TokenKind.comma →
      ArgList c ((toks.drop n).drop 1) Args rest →
      ArgList c toks (e :: Args) rest

/-! ## Sample collaborators and inputs -/

/-- A nested-name-specifier of the sample front end: `identifier ::` repeated. -/
def sampleScope : List Token → List IdentifierInfo × Nat
  | t1 :: t2 :: rest =>
    if t1.kind = TokenKind.identifier ∧ t2.kind = TokenKind.coloncolon then
      (t1.ident :: (sampleScope rest).1, (sampleScope rest).2 + 2)
    else ([], 0)
  | _ => ([], 0)

/-- Names declared in the translation unit of `test/CXX/meta/reflexpr.cpp`
that the sample lookup knows: (name, kind, entity). -/
def sampleDecls : List (IdentifierInfo × Nat × Nat) :=
  [("x1", 1, 10), ("f1", 2, 20), ("N", 0, 30), ("C1", 3, 40), ("X", 7, 50)]

/-- A small front end standing in for the collaborators: it looks names up in
`sampleDecls`, takes `int` to begin a type-id, and parses an identifier or a
numeric constant as a constant expression. -/
def sample : Collaborators where
  ParseOptionalCXXScopeSpecifier := fun toks =>
    ({ isInvalid := false, scope := (sampleScope toks).1 }, (sampleScope toks).2)
  ActOnReflectedId := fun _ _ Id => (sampleDecls.lookup Id)
  isCXXTypeId := fun toks => decide ((toks.headD eofToken).kind = TokenKind.kw "int")
  ParseSpecifierQualifierList := fun _ => ({ spec := 0 }, 1)
  ParseDeclarator := fun DS _ => ({ DS := DS, isInvalidType := false, ty := 0 }, 0)
  ActOnReflectedType := fun D => some (8, D.ty)
  ActOnCXXReflectExpression := fun KWLoc _ _ _ _ => ExprResult.Expr KWLoc
  ParseConstantExpression := fun toks =>
    if (toks.headD eofToken).kind = TokenKind.identifier
        ∨ (toks.headD eofToken).kind = TokenKind.numeric_constant then
      (ExprResult.Expr (toks.headD eofToken).loc, 1)
    else (ExprResult.ExprError, 0)
  ActOnReflectionTrait := fun Loc _ _ _ => ExprResult.Expr Loc

/-- A front end in which `T` names a type that identifier lookup does not
find, while the tokens `T` would parse as a type-id. -/
def sampleTypeName : Collaborators :=
  { sample with
    isCXXTypeId := fun toks =>
      decide ((toks.headD eofToken).kind = TokenKind.kw "int"
        ∨ (toks.headD eofToken).ident = "T") }

/-- A trait table: the unary `__reflect_index` named in the source, and one
binary trait. -/
def sampleTraits : List TraitEntry :=
  [TraitEntry.REFLECTION_TRAIT_1 "__reflect_index" "ReflectIndex",
   TraitEntry.REFLECTION_TRAIT_2 "__reflect_pair" "ReflectPair"]

def mkTok (kind : TokenKind) (loc : SourceLocation) : Token :=
  { kind := kind, loc := loc, ident := "" }

def mkId (Id : IdentifierInfo) (loc : SourceLocation) : Token :=
  { kind := TokenKind.identifier, loc := loc, ident := Id }

def startParser (toks : List Token) : Parser := { toks := toks, log := [] }

/-- Tokens of `reflexpr(nope);` where `nope` is not declared. -/
def toksUndeclared : List Token :=
  [mkTok TokenKind.kw_reflexpr 0, mkTok TokenKind.l_paren 1, mkId "nope" 2,
   mkTok TokenKind.r_paren 3, mkTok TokenKind.semi 4]

/-- The operand tokens of `reflexpr(C1);` of reflexpr.cpp, after `reflexpr (`. -/
def toksClassName : List Token :=
  [mkId "C1" 2, mkTok TokenKind.r_paren 3, mkTok TokenKind.semi 4]

/-- Tokens of `reflexpr(T);`. -/
def toksTypeName : List Token :=
  [mkTok TokenKind.kw_reflexpr 0, mkTok TokenKind.l_paren 1, mkId "T" 2,
   mkTok TokenKind.r_paren 3, mkTok TokenKind.semi 4]

/-- Tokens of the argument list `a, b);` behind `K (`. -/
def toksTwoArgs : List Token :=
  [mkId "a" 2, mkTok TokenKind.comma 3, mkId "b" 4, mkTok TokenKind.r_paren 5,
   mkTok TokenKind.semi 6]

/-- Tokens of `__reflect_index();`. -/
def toksNoArgs : List Token :=
  [mkTok (TokenKind.kw "__reflect_index") 0, mkTok TokenKind.l_paren 1,
   mkTok TokenKind.r_paren 2, mkTok TokenKind.semi 3]

/-! ## The reflection value model used by the library tests

`<cppx/meta>` is not among the sources; the operations the two tests call are
modelled from sections 3 and 4.3 of the specification. -/

/-- Modelled from the spec: the entity kinds of the data model. -/
inductive EntityKind
  | namespace_decl
  | variable_decl
  | function_decl
  | class_decl
  | data_member
  | member_function
  | enum_decl
  | enumerator_decl
  | type_decl
  | unknown
  deriving DecidableEq, Repr

/-- Modelled from the spec: an entity handle is an index into the declaration
table. -/
abbrev Handle := Nat

/-- Modelled from the spec: a record of the declaration table.  `members` are the direct member
declarations in source order, `parent` the containing declaration, `value`
the constant value of an enumerator. -/
structure Declaration where
  kind : EntityKind
  name : String
  value : Int
  parent : Option Handle
  members : List Handle
  deriving DecidableEq, Repr

abbrev DeclTable := List Declaration

/-- Modelled from the spec: `meta::object`, the reflection object.  Identity
is that of the entity it wraps; `null` is the null-object sentinel. -/
inductive MetaObject
  | null
  | entity (h : Handle)
  deriving DecidableEq, Repr

/-- Modelled from the spec: `meta::iterator`, a cursor `(container, position)`
into the member sequence of a container; equality is by both fields. -/
structure MetaIterator where
  container : Handle
  position : Nat
  deriving DecidableEq, Repr

def EntityKind.isContainer : EntityKind → Bool
  | .namespace_decl => true
  | .class_decl => true
  | .enum_decl => true
  | _ => false

/-- Modelled from the spec: `is_null(x)`. -/
def is_null : MetaObject → Bool
  | .null => true
  | .entity _ => false

/-- Modelled from the spec: `begin(x)`, defined only for container kinds
(`none` is `NotIterable`). -/
def begin_ (tbl : DeclTable) : MetaObject → Option MetaIterator
  | .null => none
  | .entity h =>
    match tbl[h]? with
    | none => none
    | some d => if d.kind.isContainer then some { container := h, position := 0 } else none

/-- Modelled from the spec: `end(x)`, the position past the last member. -/
def end_ (tbl : DeclTable) : MetaObject → Option MetaIterator
  | .null => none
  | .entity h =>
    match tbl[h]? with
    | none => none
    | some d =>
      if d.kind.isContainer then some { container := h, position := d.members.length }
      else none

/-- Modelled from the spec: `++it`, one step of forward traversal. -/
def MetaIterator.incr (it : MetaIterator) : MetaIterator :=
  { it with position := it.position + 1 }

/-- Modelled from the spec: `valueof(x)` of an enumerator. -/
def valueof (tbl : DeclTable) : MetaObject → Option Int
  | .null => none
  | .entity h =>
    match tbl[h]? with
    | none => none
    | some d => if d.kind = EntityKind.enumerator_decl then some d.value else none

/-- Modelled from the spec: `name(x)`, the unqualified spelling. -/
def name (tbl : DeclTable) : MetaObject → Option String
  | .null => none
  | .entity h => (tbl[h]?).map (fun d => d.name)

/-- Modelled from the spec: the member that follows `h` in a member sequence
in declaration order, `null` past the last. -/
def nextIn (h : Handle) : List Handle → MetaObject
  | [] => MetaObject.null
  | m :: rest =>
    if m = h then
      match rest with
      | [] => MetaObject.null
      | r :: _ => MetaObject.entity r
    else nextIn h rest

/-- Modelled from the spec: `next(x)` for an enumerator: the reflection of
the next enumerator of its enum in declaration order, or the null object. -/
def next (tbl : DeclTable) : MetaObject → Option MetaObject
  | .null => none
  | .entity h =>
    match tbl[h]? with
    | none => none
    | some d =>
      if d.kind = EntityKind.enumerator_decl then
        match d.parent with
        | none => none
        | some p => (tbl[p]?).map (fun e => nextIn h e.members)
      else none

/-- Modelled from the spec: `front(x)`, the reflection of the first member of
a container, the null object when it has none. -/
def front (tbl : DeclTable) : MetaObject → Option MetaObject
  | .null => none
  | .entity h =>
    match tbl[h]? with
    | none => none
    | some d =>
      if d.kind.isContainer then
        match d.members with
        | [] => some MetaObject.null
        | m :: _ => some (MetaObject.entity m)
      else none

/-- The reflection of the first handle of a member sequence, `null` when it
is empty. -/
def firstObject : List Handle → MetaObject
  | [] => MetaObject.null
  | m :: _ => MetaObject.entity m

/-! ## test/CXX/meta/iterator.cpp -/

/-- The largest value of the C++ type `int` (32 bits). -/
def INT_MAX : Int := 2147483647

/-- The loop of `count_members` (lines 20-23).  The counter `n` is an `int`:
`++n` at `INT_MAX` overflows, which has no value in a constant expression.
`none` when that happens or when `fuel` runs out. -/
def count_members_loop : Nat → MetaIterator → MetaIterator → Int → Option Int
  | 0, _, _, _ => none
  | fuel + 1, first, last, n =>
    if first ≠ last then
      if n = INT_MAX then none
      else count_members_loop fuel first.incr last (n + 1)
    else some n

/-- The function `count_members` (iterator.cpp, lines 16-25). -/
def count_members (tbl : DeclTable) (fuel : Nat) (x : MetaObject) : Option Int :=
  match begin_ tbl x, end_ tbl x with
  | some first, some last => count_members_loop fuel first last 0
  | _, _ => none

/-! ## test/CXX/meta/to_string.cpp -/

/-- The template `find_enumerator<X>(val)` (to_string.cpp, lines 14-23).  The outer
`none` is no result (fuel used up, or an operation without a value); the
inner option is the returned `const char*`, `none` for `nullptr`. -/
def find_enumerator (tbl : DeclTable) : Nat → MetaObject → Int → Option (Option String)
  | 0, _, _ => none
  | fuel + 1, X, val =>
    if !is_null X then
      match valueof tbl X with
      | none => none
      | some v =>
        if v = val then (name tbl X).map some
        else
          match next tbl X with
          | none => none
          | some Y => find_enumerator tbl fuel Y val
    else some none

/-- The non-null template arguments at which `find_enumerator` is
instantiated when `find_enumerator<X>` is: its body, compiled for a non-null
`X`, names `find_enumerator<next(X)>`. -/
def find_enumerator_visits (tbl : DeclTable) : Nat → MetaObject → Option (List MetaObject)
  | 0, _ => none
  | fuel + 1, X =>
    if !is_null X then
      match next tbl X with
      | none => none
      | some Y => (find_enumerator_visits tbl fuel Y).map (fun rest => X :: rest)
    else some []

/-- The template `enum_to_string(val)` (to_string.cpp, lines 25-28) for the enum type `T`. -/
def enum_to_string (tbl : DeclTable) (fuel : Nat) (T : Handle) (val : Int) :
    Option (Option String) :=
  match front tbl (MetaObject.entity T) with
  | none => none
  | some X => find_enumerator tbl fuel X val

/-- The handle `E` is an enum of `tbl` whose enumerators, in declaration order, are `es`. -/
def IsEnumWith (tbl : DeclTable) (E : Handle) (es : List Handle) : Prop :=
  (tbl[E]?).map (fun d => d.kind) = some EntityKind.enum_decl ∧
  (tbl[E]?).map (fun d => d.members) = some es ∧
  es.Nodup ∧
  ∀ e ∈ es, (tbl[e]?).map (fun d => d.kind) = some EntityKind.enumerator_decl ∧
    (tbl[e]?).map (fun d => d.parent) = some (some E)

instance (tbl : DeclTable) (E : Handle) (es : List Handle) : Decidable (IsEnumWith tbl E es) := by
  unfold IsEnumWith; infer_instance

/-- The declarations of iterator.cpp: `namespace N { void f1(); ... void f4(); }`. -/
def iteratorDecls : DeclTable :=
  [ { kind := .namespace_decl, name := "N", value := 0, parent := none, members := [1, 2, 3, 4] },
    { kind := .function_decl, name := "f1", value := 0, parent := some 0, members := [] },
    { kind := .function_decl, name := "f2", value := 0, parent := some 0, members := [] },
    { kind := .function_decl, name := "f3", value := 0, parent := some 0, members := [] },
    { kind := .function_decl, name := "f4", value := 0, parent := some 0, members := [] } ]

/-- The declarations of to_string.cpp: `enum E { X, A, B, C };`. -/
def toStringDecls : DeclTable :=
  [ { kind := .enum_decl, name := "E", value := 0, parent := none, members := [1, 2, 3, 4] },
    { kind := .enumerator_decl, name := "X", value := 0, parent := some 0, members := [] },
    { kind := .enumerator_decl, name := "A", value := 1, parent := some 0, members := [] },
    { kind := .enumerator_decl, name := "B", value := 2, parent := some 0, members := [] },
    { kind := .enumerator_decl, name := "C", value := 3, parent := some 0, members := [] } ]

/-! ## Basic facts about the parser state and the delimiter tracker -/

@[simp] theorem Parser.emit_log (P : Parser) (e : Event) : (P.emit e).log = P.log ++ [e] := rfl

@[simp] theorem Parser.emit_toks (P : Parser) (e : Event) : (P.emit e).toks = P.toks := rfl

@[simp] theorem Parser.advance_log (P : Parser) (n : Nat) : (P.advance n).log = P.log := rfl

@[simp] theorem Parser.advance_toks (P : Parser) (n : Nat) :
    (P.advance n).toks = P.toks.drop n := rfl

@[simp] theorem Parser.emit_Tok (P : Parser) (e : Event) : (P.emit e).Tok = P.Tok := rfl

theorem expectAndConsume_ok (T : BalancedDelimiterTracker) (P : Parser) (ID : DiagID)
    (h : P.Tok.kind = TokenKind.l_paren) :
    T.expectAndConsume P ID = (false, { T with LOpen := P.Tok.loc }, P.advance 1) := by
  simp [BalancedDelimiterTracker.expectAndConsume, h]

theorem expectAndConsume_err (T : BalancedDelimiterTracker) (P : Parser) (ID : DiagID)
    (h : P.Tok.kind ≠ TokenKind.l_paren) :
    T.expectAndConsume P ID =
      (true, { T with LOpen := P.Tok.loc }, P.emit (Event.Diag P.Tok.loc ID [] [])) := by
  simp [BalancedDelimiterTracker.expectAndConsume, h]

theorem consumeClose_ok (T : BalancedDelimiterTracker) (P : Parser)
    (h : P.Tok.kind = TokenKind.r_paren) :
    T.consumeClose P = (false, { T with LClose := P.Tok.loc }, P.advance 1) := by
  simp [BalancedDelimiterTracker.consumeClose, h]

/-- A failing `consumeClose` only adds its two diagnostics to the log. -/
theorem consumeClose_err (T : BalancedDelimiterTracker) (P : Parser)
    (h : P.Tok.kind ≠ TokenKind.r_paren) :
    (T.consumeClose P).1 = true ∧
    (T.consumeClose P).2.2.log =
      P.log ++ [Event.Diag P.Tok.loc DiagID.err_expected [] [],
        Event.Diag T.LOpen DiagID.note_matching [] []] := by
  unfold BalancedDelimiterTracker.consumeClose
  rw [if_neg h]
  dsimp only
  split_ifs <;> simp

/-- The ways the type-id alternative can end. -/
theorem ParseReflectedTypeId_cases (c : Collaborators) (P : Parser) :
    let DS := c.ParseSpecifierQualifierList P.toks
    let D := c.ParseDeclarator DS.1 (P.toks.drop DS.2)
    let P1 : Parser :=
      { toks := (P.toks.drop DS.2).drop D.2,
        log := P.log ++ [Event.ParseSpecifierQualifierList, Event.ParseDeclarator D.1] }
    (D.1.isInvalidType = true ∧ ParseReflectedTypeId c P = OperandResult.Return P1) ∨
    (D.1.isInvalidType = false ∧ c.ActOnReflectedType D.1 = none ∧
      ParseReflectedTypeId c P =
        OperandResult.Return (P1.emit (Event.ActOnReflectedType D.1))) ∨
    (D.1.isInvalidType = false ∧ ∃ Kind Entity, c.ActOnReflectedType D.1 = some (Kind, Entity) ∧
      ParseReflectedTypeId c P =
        OperandResult.Continue (some Kind) (some Entity)
          (P1.emit (Event.ActOnReflectedType D.1))) := by
  intro DS D P1
  unfold ParseReflectedTypeId
  by_cases hinv : D.1.isInvalidType = true
  · left
    refine ⟨hinv, ?_⟩
    simp [Parser.emit, Parser.advance, DS, D, P1] at hinv ⊢
    simp [hinv]
  · right
    have hinv2 : D.1.isInvalidType = false := by simpa using hinv
    cases hact : c.ActOnReflectedType D.1 with
    | none =>
      left
      refine ⟨hinv2, rfl, ?_⟩
      simp [Parser.emit, Parser.advance, DS, D, P1] at hinv2 hact ⊢
      simp [hinv2, hact]
    | some KE =>
      right
      obtain ⟨Kind, Entity⟩ := KE
      refine ⟨hinv2, Kind, Entity, rfl, ?_⟩
      simp [Parser.emit, Parser.advance, DS, D, P1] at hinv2 hact ⊢
      simp [hinv2, hact]

/-- The ways the operand part can end. -/
theorem ParseReflectedOperand_cases (c : Collaborators) (P : Parser) :
    let SS := c.ParseOptionalCXXScopeSpecifier P.toks
    let P1 : Parser :=
      { toks := P.toks.drop SS.2, log := P.log ++ [Event.ParseOptionalCXXScopeSpecifier] }
    let Act := Event.ActOnReflectedId SS.1 P1.Tok.loc P1.Tok.ident
    (SS.1.isInvalid = false ∧ P1.Tok.kind = TokenKind.identifier ∧
      c.ActOnReflectedId SS.1 P1.Tok.loc P1.Tok.ident = none ∧
      ParseReflectedOperand c P = OperandResult.Return ((P1.advance 1).emit Act)) ∨
    (SS.1.isInvalid = false ∧ P1.Tok.kind = TokenKind.identifier ∧
      ∃ Kind Entity, c.ActOnReflectedId SS.1 P1.Tok.loc P1.Tok.ident = some (Kind, Entity) ∧
      ParseReflectedOperand c P =
        OperandResult.Continue (some Kind) (some Entity) ((P1.advance 1).emit Act)) ∨
    (¬ (SS.1.isInvalid = false ∧ P1.Tok.kind = TokenKind.identifier) ∧
      c.isCXXTypeId P1.toks = true ∧
      ParseReflectedOperand c P = ParseReflectedTypeId c (P1.emit Event.isCXXTypeId)) ∨
    (¬ (SS.1.isInvalid = false ∧ P1.Tok.kind = TokenKind.identifier) ∧
      c.isCXXTypeId P1.toks = false ∧
      ParseReflectedOperand c P = OperandResult.Continue none none (P1.emit Event.isCXXTypeId)) := by
  intro SS P1 Act
  have hP1 : (P.emit Event.ParseOptionalCXXScopeSpecifier).advance SS.2 = P1 := rfl
  unfold ParseReflectedOperand
  simp only [ConsumeToken]
  rw [hP1]
  by_cases hid : SS.1.isInvalid = false ∧ P1.Tok.kind = TokenKind.identifier
  · have hcond : (!SS.1.isInvalid && decide (P1.Tok.kind = TokenKind.identifier)) = true := by
      simp [hid.1, hid.2]
    rw [if_pos hcond]
    cases hact : c.ActOnReflectedId SS.1 P1.Tok.loc P1.Tok.ident with
    | none => left; exact ⟨hid.1, hid.2, rfl, rfl⟩
    | some KE =>
      right; left
      obtain ⟨Kind, Entity⟩ := KE
      exact ⟨hid.1, hid.2, Kind, Entity, rfl, rfl⟩
  · have hcond : ¬ (!SS.1.isInvalid && decide (P1.Tok.kind = TokenKind.identifier)) = true := by
      intro h
      apply hid
      simpa using h
    rw [if_neg hcond]
    right; right
    by_cases hty : c.isCXXTypeId P1.toks = true
    · left
      rw [if_pos hty]
      exact ⟨hid, hty, rfl⟩
    · right
      rw [if_neg hty]
      exact ⟨hid, by simpa using hty, rfl⟩

/-- The ways `ParseCXXReflectExpression` can end, given how its operand part
ends. -/
theorem ParseCXXReflectExpression_cases (c : Collaborators) (P0 : Parser) :
    let P1 := P0.advance 1
    (P1.Tok.kind ≠ TokenKind.l_paren ∧
      ParseCXXReflectExpression c P0 =
        (ExprResult.ExprError,
          P1.emit (Event.Diag P1.Tok.loc DiagID.err_expected_lparen_after [] []))) ∨
    (P1.Tok.kind = TokenKind.l_paren ∧ ∃ P2,
      ParseReflectedOperand c (P1.advance 1) = OperandResult.Return P2 ∧
      ParseCXXReflectExpression c P0 = (ExprResult.ExprError, P2)) ∨
    (P1.Tok.kind = TokenKind.l_paren ∧ ∃ Kind Entity P2,
      ParseReflectedOperand c (P1.advance 1) = OperandResult.Continue Kind Entity P2 ∧
      P2.Tok.kind ≠ TokenKind.r_paren ∧
      (ParseCXXReflectExpression c P0).1 = ExprResult.ExprError ∧
      (ParseCXXReflectExpression c P0).2.log =
        P2.log ++ [Event.Diag P2.Tok.loc DiagID.err_expected [] [],
          Event.Diag P1.Tok.loc DiagID.note_matching [] []]) ∨
    (P1.Tok.kind = TokenKind.l_paren ∧ ∃ Kind Entity P2,
      ParseReflectedOperand c (P1.advance 1) = OperandResult.Continue Kind Entity P2 ∧
      P2.Tok.kind = TokenKind.r_paren ∧
      ParseCXXReflectExpression c P0 =
        (c.ActOnCXXReflectExpression P0.Tok.loc Kind Entity P1.Tok.loc P2.Tok.loc,
          (P2.advance 1).emit
            (Event.ActOnCXXReflectExpression P0.Tok.loc Kind Entity P1.Tok.loc P2.Tok.loc))) := by
  intro P1
  unfold ParseCXXReflectExpression
  simp only [ConsumeToken]
  by_cases hopen : P1.Tok.kind = TokenKind.l_paren
  · right
    rw [expectAndConsume_ok _ _ _ hopen]
    simp only [Bool.false_eq_true, if_false]
    cases hop : ParseReflectedOperand c (P1.advance 1) with
    | Return P2 => left; exact ⟨hopen, P2, rfl, rfl⟩
    | Continue Kind Entity P2 =>
      right
      by_cases hclose : P2.Tok.kind = TokenKind.r_paren
      · right
        refine ⟨hopen, Kind, Entity, P2, rfl, hclose, ?_⟩
        simp only [consumeClose_ok _ _ hclose, Bool.false_eq_true, if_false]
      · left
        refine ⟨hopen, Kind, Entity, P2, rfl, hclose, ?_⟩
        have h := consumeClose_err { LOpen := P1.Tok.loc, LClose := 0 } P2 hclose
        simp only [h.1, if_true]
        exact ⟨trivial, h.2⟩
  · left
    rw [expectAndConsume_err _ _ _ hopen]
    exact ⟨hopen, rfl⟩

/-- Every path through the operand part, with the log it leaves. -/
theorem ParseReflectedOperand_paths (c : Collaborators) (P : Parser) :
    ∃ (SS : CXXScopeSpec) (n : Nat) (rest : List Token) (t : Token),
      c.ParseOptionalCXXScopeSpecifier P.toks = (SS, n) ∧ rest = P.toks.drop n ∧
      t = rest.headD eofToken ∧
      ((SS.isInvalid = false ∧ t.kind = TokenKind.identifier ∧
          c.ActOnReflectedId SS t.loc t.ident = none ∧
          ParseReflectedOperand c P = OperandResult.Return
            { toks := rest.drop 1,
              log := P.log ++ [Event.ParseOptionalCXXScopeSpecifier,
                Event.ActOnReflectedId SS t.loc t.ident] }) ∨
       (SS.isInvalid = false ∧ t.kind = TokenKind.identifier ∧
          ∃ Kind Entity, c.ActOnReflectedId SS t.loc t.ident = some (Kind, Entity) ∧
          ParseReflectedOperand c P = OperandResult.Continue (some Kind) (some Entity)
            { toks := rest.drop 1,
              log := P.log ++ [Event.ParseOptionalCXXScopeSpecifier,
                Event.ActOnReflectedId SS t.loc t.ident] }) ∨
       (¬ (SS.isInvalid = false ∧ t.kind = TokenKind.identifier) ∧
          c.isCXXTypeId rest = false ∧
          ParseReflectedOperand c P = OperandResult.Continue none none
            { toks := rest,
              log := P.log ++ [Event.ParseOptionalCXXScopeSpecifier, Event.isCXXTypeId] }) ∨
       (¬ (SS.isInvalid = false ∧ t.kind = TokenKind.identifier) ∧
          c.isCXXTypeId rest = true ∧
          ∃ (DS : DeclSpec) (k : Nat) (D : Declarator) (m : Nat),
            c.ParseSpecifierQualifierList rest = (DS, k) ∧
            c.ParseDeclarator DS (rest.drop k) = (D, m) ∧
            ((D.isInvalidType = true ∧
                ParseReflectedOperand c P = OperandResult.Return
                  { toks := (rest.drop k).drop m,
                    log := P.log ++ [Event.ParseOptionalCXXScopeSpecifier, Event.isCXXTypeId,
                      Event.ParseSpecifierQualifierList, Event.ParseDeclarator D] }) ∨
             (D.isInvalidType = false ∧ c.ActOnReflectedType D = none ∧
                ParseReflectedOperand c P = OperandResult.Return
                  { toks := (rest.drop k).drop m,
                    log := P.log ++ [Event.ParseOptionalCXXScopeSpecifier, Event.isCXXTypeId,
                      Event.ParseSpecifierQualifierList, Event.ParseDeclarator D,
                      Event.ActOnReflectedType D] }) ∨
             (D.isInvalidType = false ∧
                ∃ Kind Entity, c.ActOnReflectedType D = some (Kind, Entity) ∧
                ParseReflectedOperand c P = OperandResult.Continue (some Kind) (some Entity)
                  { toks := (rest.drop k).drop m,
                    log := P.log ++ [Event.ParseOptionalCXXScopeSpecifier, Event.isCXXTypeId,
                      Event.ParseSpecifierQualifierList, Event.ParseDeclarator D,
                      Event.ActOnReflectedType D] })))) := by
  refine ⟨(c.ParseOptionalCXXScopeSpecifier P.toks).1, (c.ParseOptionalCXXScopeSpecifier P.toks).2,
    _, _, rfl, rfl, rfl, ?_⟩
  rcases ParseReflectedOperand_cases c P with ⟨h1, h2, h3, h4⟩ | ⟨h1, h2, K, E, h3, h4⟩ |
      ⟨h1, h3, h4⟩ | ⟨h1, h3, h4⟩
  · left
    refine ⟨h1, h2, h3, ?_⟩
    rw [h4]
    simp [Parser.emit, Parser.advance, Parser.Tok]
  · right; left
    refine ⟨h1, h2, K, E, h3, ?_⟩
    rw [h4]
    simp [Parser.emit, Parser.advance, Parser.Tok]
  · right; right; right
    refine ⟨h1, h3, _, _, _, _, rfl, rfl, ?_⟩
    rw [h4]
    rcases ParseReflectedTypeId_cases c
        (({ toks := P.toks.drop (c.ParseOptionalCXXScopeSpecifier P.toks).2,
            log := P.log ++ [Event.ParseOptionalCXXScopeSpecifier] } : Parser).emit
          Event.isCXXTypeId) with ⟨t1, t2⟩ | ⟨t1, t3, t2⟩ | ⟨t1, K, E, t3, t2⟩
    · left
      refine ⟨t1, ?_⟩
      rw [t2]
      simp [Parser.emit]
    · right; left
      refine ⟨t1, t3, ?_⟩
      rw [t2]
      simp [Parser.emit]
    · right; right
      refine ⟨t1, K, E, t3, ?_⟩
      rw [t2]
      simp [Parser.emit]
  · right; right; left
    refine ⟨h1, h3, ?_⟩
    rw [h4]
    simp [Parser.emit]

/-- Every path through `ParseCXXReflectExpression` after the opening
parenthesis, given how the operand part ended. -/
theorem ParseCXXReflectExpression_after_operand (c : Collaborators) (toks : List Token)
    (kw lp : Token) (hkw : kw = toks.headD eofToken) (hlp : lp = (toks.drop 1).headD eofToken)
    (hopen : lp.kind = TokenKind.l_paren) :
    (∃ P2, ParseReflectedOperand c { toks := toks.drop 2, log := [] } = OperandResult.Return P2 ∧
      ParseCXXReflectExpression c (startParser toks) = (ExprResult.ExprError, P2)) ∨
    (∃ Kind Entity P2,
      ParseReflectedOperand c { toks := toks.drop 2, log := [] } =
        OperandResult.Continue Kind Entity P2 ∧
      ((P2.toks.headD eofToken).kind ≠ TokenKind.r_paren ∧
        (ParseCXXReflectExpression c (startParser toks)).1 = ExprResult.ExprError ∧
        (ParseCXXReflectExpression c (startParser toks)).2.log =
          P2.log ++ [Event.Diag (P2.toks.headD eofToken).loc DiagID.err_expected [] [],
            Event.Diag lp.loc DiagID.note_matching [] []] ∨
       (P2.toks.headD eofToken).kind = TokenKind.r_paren ∧
        ParseCXXReflectExpression c (startParser toks) =
          (c.ActOnCXXReflectExpression kw.loc Kind Entity lp.loc (P2.toks.headD eofToken).loc,
            { toks := P2.toks.drop 1,
              log := P2.log ++ [Event.ActOnCXXReflectExpression kw.loc Kind Entity lp.loc
                (P2.toks.headD eofToken).loc] }))) := by
  subst hkw hlp
  have hdrop : ((startParser toks).advance 1).advance 1 = { toks := toks.drop 2, log := [] } := by
    simp [startParser, Parser.advance]
  have hTok1 : ((startParser toks).advance 1).Tok = (toks.drop 1).headD eofToken := rfl
  have hTok0 : (startParser toks).Tok = toks.headD eofToken := rfl
  rcases ParseCXXReflectExpression_cases c (startParser toks) with ⟨h, -⟩ | ⟨-, P2, hP2, hr⟩ |
      ⟨-, K, E, P2, hP2, hcl, hr1, hr2⟩ | ⟨-, K, E, P2, hP2, hcl, hr⟩
  · exact absurd hopen h
  · left
    rw [hdrop] at hP2
    exact ⟨P2, hP2, hr⟩
  · right
    rw [hdrop] at hP2
    rw [hTok1] at hr2
    exact ⟨K, E, P2, hP2, Or.inl ⟨hcl, hr1, hr2⟩⟩
  · right
    rw [hdrop] at hP2
    rw [hTok1, hTok0] at hr
    exact ⟨K, E, P2, hP2, Or.inr ⟨hcl, hr⟩⟩

/-! ## Theorems: ParseCXXReflectExpression -/

/-- C3: resolution errors short-circuit.  Whenever a parse of `reflexpr`
called `ActOnReflectedId` and it reported failure, or parsed a type-id
declarator that is invalid, or called `ActOnReflectedType` and it reported
failure, the function returns `ExprError`, that failing step is the last thing
it did, and `ActOnCXXReflectExpression` was not called. -/
theorem ParseCXXReflectExpression_short_circuit (c : Collaborators) (toks : List Token)
    (e : Event)
    (hmem : e ∈ (ParseCXXReflectExpression c (startParser toks)).2.log)
    (hfail : (∃ SS IdLoc Id, e = Event.ActOnReflectedId SS IdLoc Id ∧
          c.ActOnReflectedId SS IdLoc Id = none) ∨
       (∃ D, e = Event.ParseDeclarator D ∧ D.isInvalidType = true) ∨
       (∃ D, e = Event.ActOnReflectedType D ∧ c.ActOnReflectedType D = none)) :
    (ParseCXXReflectExpression c (startParser toks)).1 = ExprResult.ExprError ∧
    (ParseCXXReflectExpression c (startParser toks)).2.log.getLast? = some e ∧
    ∀ KWLoc Kind Entity LOpen LClose,
      Event.ActOnCXXReflectExpression KWLoc Kind Entity LOpen LClose ∉
        (ParseCXXReflectExpression c (startParser toks)).2.log := by
  by_cases hopen : ((toks.drop 1).headD eofToken).kind = TokenKind.l_paren
  · obtain ⟨SS, n, rest, t, hSS, hrest, ht, hpaths⟩ :=
      ParseReflectedOperand_paths c { toks := toks.drop 2, log := [] }
    rcases ParseCXXReflectExpression_after_operand c toks _ _ rfl rfl hopen with
      ⟨P2, hP2, hr⟩ | ⟨K, E, P2, hP2, ⟨hcl, hr1, hr2⟩ | ⟨hcl, hr⟩⟩
    · rw [hr] at hmem ⊢
      rcases hpaths with ⟨h1, h2, h3, h4⟩ | ⟨h1, h2, K1, E1, h3, h4⟩ | ⟨h1, h3, h4⟩ |
          ⟨h1, h3, DS, k, D, m, hDS, hD, ⟨t1, h4⟩ | ⟨t1, t3, h4⟩ | ⟨t1, K2, E2, t3, h4⟩⟩ <;>
        rw [h4] at hP2 <;> cases hP2 <;>
        rcases hfail with ⟨SS1, IdLoc, Id, rfl, hnone⟩ | ⟨D1, rfl, hinv⟩ | ⟨D1, rfl, hnone⟩ <;>
        simp_all
    · rw [hr2] at hmem ⊢
      rw [hr1]
      rcases hpaths with ⟨h1, h2, h3, h4⟩ | ⟨h1, h2, K1, E1, h3, h4⟩ | ⟨h1, h3, h4⟩ |
          ⟨h1, h3, DS, k, D, m, hDS, hD, ⟨t1, h4⟩ | ⟨t1, t3, h4⟩ | ⟨t1, K2, E2, t3, h4⟩⟩ <;>
        rw [h4] at hP2 <;> cases hP2 <;>
        rcases hfail with ⟨SS1, IdLoc, Id, rfl, hnone⟩ | ⟨D1, rfl, hinv⟩ | ⟨D1, rfl, hnone⟩ <;>
        simp_all
    · rw [hr] at hmem ⊢
      rcases hpaths with ⟨h1, h2, h3, h4⟩ | ⟨h1, h2, K1, E1, h3, h4⟩ | ⟨h1, h3, h4⟩ |
          ⟨h1, h3, DS, k, D, m, hDS, hD, ⟨t1, h4⟩ | ⟨t1, t3, h4⟩ | ⟨t1, K2, E2, t3, h4⟩⟩ <;>
        rw [h4] at hP2 <;> cases hP2 <;>
        rcases hfail with ⟨SS1, IdLoc, Id, rfl, hnone⟩ | ⟨D1, rfl, hinv⟩ | ⟨D1, rfl, hnone⟩ <;>
        simp_all
  · rcases ParseCXXReflectExpression_cases c (startParser toks) with ⟨-, hr⟩ | ⟨h, -⟩ |
      ⟨h, -⟩ | ⟨h, -⟩
    · rw [hr] at hmem ⊢
      rcases hfail with ⟨SS, IdLoc, Id, rfl, hnone⟩ | ⟨D, rfl, hinv⟩ | ⟨D, rfl, hnone⟩ <;>
        simp [startParser] at hmem
    all_goals exact absurd h hopen

/-- C3 on `reflexpr(nope)` with `nope` undeclared. -/
theorem ParseCXXReflectExpression_short_circuit_witness :
    Event.ActOnReflectedId { isInvalid := false, scope := [] } 2 "nope" ∈
      (ParseCXXReflectExpression sample (startParser toksUndeclared)).2.log ∧
    sample.ActOnReflectedId { isInvalid := false, scope := [] } 2 "nope" = none ∧
    ((ParseCXXReflectExpression sample (startParser toksUndeclared)).1 = ExprResult.ExprError ∧
      (ParseCXXReflectExpression sample (startParser toksUndeclared)).2.log.getLast? =
        some (Event.ActOnReflectedId { isInvalid := false, scope := [] } 2 "nope") ∧
      ∀ KWLoc Kind Entity LOpen LClose,
        Event.ActOnCXXReflectExpression KWLoc Kind Entity LOpen LClose ∉
          (ParseCXXReflectExpression sample (startParser toksUndeclared)).2.log) :=
  ⟨by decide, by decide,
    ParseCXXReflectExpression_short_circuit sample toksUndeclared
      (Event.ActOnReflectedId { isInvalid := false, scope := [] } 2 "nope") (by decide)
      (Or.inl ⟨_, _, _, rfl, by decide⟩)⟩

/-- C5: identifier-based resolution takes precedence.  After `reflexpr (`,
when the scope specifier is not invalid and the next token is an identifier,
`ActOnReflectedId` is called with that scope, the identifier's location and
the identifier, and none of `isCXXTypeId`, `ParseSpecifierQualifierList`,
`ParseDeclarator`, `ActOnReflectedType` is; and whenever `ActOnReflectedType`
is called, the scope specifier was invalid or the next token was not an
identifier, and `isCXXTypeId` held. -/
theorem ParseCXXReflectExpression_identifier_first (c : Collaborators) (kw lp : Token)
    (rest : List Token) (hkw : kw.kind = TokenKind.kw_reflexpr)
    (hlp : lp.kind = TokenKind.l_paren) :
    ((c.ParseOptionalCXXScopeSpecifier rest).1.isInvalid = false ∧
      ((rest.drop (c.ParseOptionalCXXScopeSpecifier rest).2).headD eofToken).kind =
        TokenKind.identifier →
      Event.ActOnReflectedId (c.ParseOptionalCXXScopeSpecifier rest).1
          ((rest.drop (c.ParseOptionalCXXScopeSpecifier rest).2).headD eofToken).loc
          ((rest.drop (c.ParseOptionalCXXScopeSpecifier rest).2).headD eofToken).ident ∈
        (ParseCXXReflectExpression c (startParser (kw :: lp :: rest))).2.log ∧
      Event.isCXXTypeId ∉ (ParseCXXReflectExpression c (startParser (kw :: lp :: rest))).2.log ∧
      Event.ParseSpecifierQualifierList ∉
        (ParseCXXReflectExpression c (startParser (kw :: lp :: rest))).2.log ∧
      (∀ D, Event.ParseDeclarator D ∉
        (ParseCXXReflectExpression c (startParser (kw :: lp :: rest))).2.log) ∧
      (∀ D, Event.ActOnReflectedType D ∉
        (ParseCXXReflectExpression c (startParser (kw :: lp :: rest))).2.log)) ∧
    (∀ D, Event.ActOnReflectedType D ∈
        (ParseCXXReflectExpression c (startParser (kw :: lp :: rest))).2.log →
      ((c.ParseOptionalCXXScopeSpecifier rest).1.isInvalid = true ∨
        ((rest.drop (c.ParseOptionalCXXScopeSpecifier rest).2).headD eofToken).kind ≠
          TokenKind.identifier) ∧
      c.isCXXTypeId (rest.drop (c.ParseOptionalCXXScopeSpecifier rest).2) = true) := by
  obtain ⟨SS, n, rest1, t, hSS, hrest, ht, hpaths⟩ :=
    ParseReflectedOperand_paths c { toks := (kw :: lp :: rest).drop 2, log := [] }
  have hafter := ParseCXXReflectExpression_after_operand c (kw :: lp :: rest) kw lp rfl rfl hlp
  simp only [List.drop_succ_cons, List.drop_zero] at hSS hrest hpaths hafter
  rw [hSS]
  simp only []
  subst hrest ht
  generalize ParseCXXReflectExpression c (startParser (kw :: lp :: rest)) = r at hafter ⊢
  rcases hafter with ⟨P2, hP2, hr⟩ | ⟨K, E, P2, hP2, ⟨hcl, hr1, hr2⟩ | ⟨hcl, hr⟩⟩
  · subst hr
    rcases hpaths with ⟨h1, h2, h3, h4⟩ | ⟨h1, h2, K1, E1, h3, h4⟩ | ⟨h1, h3, h4⟩ |
        ⟨h1, h3, DS, k, D, m, hDS, hD, ⟨t1, h4⟩ | ⟨t1, t3, h4⟩ | ⟨t1, K2, E2, t3, h4⟩⟩ <;>
      rw [h4] at hP2 <;> cases hP2 <;> simp_all <;>
      (cases hb : SS.isInvalid <;> simp_all)
  · rcases hpaths with ⟨h1, h2, h3, h4⟩ | ⟨h1, h2, K1, E1, h3, h4⟩ | ⟨h1, h3, h4⟩ |
        ⟨h1, h3, DS, k, D, m, hDS, hD, ⟨t1, h4⟩ | ⟨t1, t3, h4⟩ | ⟨t1, K2, E2, t3, h4⟩⟩ <;>
      rw [h4] at hP2 <;> cases hP2 <;> simp_all <;>
      (cases hb : SS.isInvalid <;> simp_all)
  · subst hr
    rcases hpaths with ⟨h1, h2, h3, h4⟩ | ⟨h1, h2, K1, E1, h3, h4⟩ | ⟨h1, h3, h4⟩ |
        ⟨h1, h3, DS, k, D, m, hDS, hD, ⟨t1, h4⟩ | ⟨t1, t3, h4⟩ | ⟨t1, K2, E2, t3, h4⟩⟩ <;>
      rw [h4] at hP2 <;> cases hP2 <;> simp_all <;>
      (cases hb : SS.isInvalid <;> simp_all)

/-- C5 on `reflexpr(C1)` of reflexpr.cpp: the class name goes through
`ActOnReflectedId`, and `ActOnReflectedType` is not called. -/
theorem ParseCXXReflectExpression_identifier_first_witness :
    (mkTok TokenKind.kw_reflexpr 0).kind = TokenKind.kw_reflexpr ∧
    (mkTok TokenKind.l_paren 1).kind = TokenKind.l_paren ∧
    Event.ActOnReflectedId { isInvalid := false, scope := [] } 2 "C1" ∈
      (ParseCXXReflectExpression sample (startParser
        (mkTok TokenKind.kw_reflexpr 0 :: mkTok TokenKind.l_paren 1 :: toksClassName))).2.log ∧
    ∀ D, Event.ActOnReflectedType D ∉
      (ParseCXXReflectExpression sample (startParser
        (mkTok TokenKind.kw_reflexpr 0 :: mkTok TokenKind.l_paren 1 :: toksClassName))).2.log :=
  ⟨rfl, rfl,
    ((ParseCXXReflectExpression_identifier_first sample (mkTok TokenKind.kw_reflexpr 0)
      (mkTok TokenKind.l_paren 1) toksClassName rfl rfl).1 ⟨by decide, by decide⟩).1,
    ((ParseCXXReflectExpression_identifier_first sample (mkTok TokenKind.kw_reflexpr 0)
      (mkTok TokenKind.l_paren 1) toksClassName rfl rfl).1
        ⟨by decide, by decide⟩).2.2.2.2⟩

/-- C4 as stated fails: for `reflexpr(T)` with a well-formed (empty) scope
specifier and the plain identifier `T`, `ActOnReflectedId` fails and the
type-id alternative on the same operand would succeed with kind 8, yet the
parse returns `ExprError` right after the identifier and never tries it. -/
theorem ParseCXXReflectExpression_fallback_counterexample :
    (sampleTypeName.ParseOptionalCXXScopeSpecifier (toksTypeName.drop 2)).1.isInvalid = false ∧
    ((toksTypeName.drop 2).headD eofToken).kind = TokenKind.identifier ∧
    sampleTypeName.ActOnReflectedId { isInvalid := false, scope := [] } 2 "T" = none ∧
    sampleTypeName.isCXXTypeId (toksTypeName.drop 2) = true ∧
    ParseReflectedTypeId sampleTypeName { toks := toksTypeName.drop 2, log := [] } =
      OperandResult.Continue (some 8) (some 0)
        { toks := [mkTok TokenKind.r_paren 3, mkTok TokenKind.semi 4],
          log := [Event.ParseSpecifierQualifierList,
            Event.ParseDeclarator { DS := { spec := 0 }, isInvalidType := false, ty := 0 },
            Event.ActOnReflectedType { DS := { spec := 0 }, isInvalidType := false, ty := 0 }] } ∧
    ParseCXXReflectExpression sampleTypeName (startParser toksTypeName) =
      (ExprResult.ExprError,
        { toks := [mkTok TokenKind.r_paren 3, mkTok TokenKind.semi 4],
          log := [Event.ParseOptionalCXXScopeSpecifier,
            Event.ActOnReflectedId { isInvalid := false, scope := [] } 2 "T"] }) := by
  decide

/-- C4, amended: after `reflexpr (`, when the scope specifier is well-formed,
the next token is a plain identifier and `ActOnReflectedId` fails, the parse
returns an error without trying the type-id alternative: its log holds the
scope-specifier parser and `ActOnReflectedId` only.  The type-id alternative
is tried only when the scope specifier is invalid or the next token is not an
identifier (any of `isCXXTypeId`, `ParseSpecifierQualifierList`,
`ParseDeclarator`, `ActOnReflectedType` in the log implies that), and it is
entered only when the tokens begin a type-id.  In that case it gives the
outcome: the parse fails when the declarator is invalid or
`ActOnReflectedType` fails, and otherwise, before a closing parenthesis,
returns what `ActOnCXXReflectExpression` makes of the kind and entity from
`ActOnReflectedType`. -/
theorem ParseCXXReflectExpression_no_fallback (c : Collaborators) (kw lp : Token)
    (rest : List Token) (hkw : kw.kind = TokenKind.kw_reflexpr)
    (hlp : lp.kind = TokenKind.l_paren) :
    ((c.ParseOptionalCXXScopeSpecifier rest).1.isInvalid = false →
      ((rest.drop (c.ParseOptionalCXXScopeSpecifier rest).2).headD eofToken).kind =
        TokenKind.identifier →
      c.ActOnReflectedId (c.ParseOptionalCXXScopeSpecifier rest).1
          ((rest.drop (c.ParseOptionalCXXScopeSpecifier rest).2).headD eofToken).loc
          ((rest.drop (c.ParseOptionalCXXScopeSpecifier rest).2).headD eofToken).ident = none →
      (ParseCXXReflectExpression c (startParser (kw :: lp :: rest))).1 = ExprResult.ExprError ∧
      (ParseCXXReflectExpression c (startParser (kw :: lp :: rest))).2.log =
        [Event.ParseOptionalCXXScopeSpecifier,
          Event.ActOnReflectedId (c.ParseOptionalCXXScopeSpecifier rest).1
            ((rest.drop (c.ParseOptionalCXXScopeSpecifier rest).2).headD eofToken).loc
            ((rest.drop (c.ParseOptionalCXXScopeSpecifier rest).2).headD eofToken).ident]) ∧
    (∀ e ∈ (ParseCXXReflectExpression c (startParser (kw :: lp :: rest))).2.log,
      (e = Event.isCXXTypeId ∨ e = Event.ParseSpecifierQualifierList ∨
        (∃ D, e = Event.ParseDeclarator D) ∨ (∃ D, e = Event.ActOnReflectedType D)) →
      (c.ParseOptionalCXXScopeSpecifier rest).1.isInvalid = true ∨
        ((rest.drop (c.ParseOptionalCXXScopeSpecifier rest).2).headD eofToken).kind ≠
          TokenKind.identifier) ∧
    (∀ e ∈ (ParseCXXReflectExpression c (startParser (kw :: lp :: rest))).2.log,
      (e = Event.ParseSpecifierQualifierList ∨
        (∃ D, e = Event.ParseDeclarator D) ∨ (∃ D, e = Event.ActOnReflectedType D)) →
      c.isCXXTypeId (rest.drop (c.ParseOptionalCXXScopeSpecifier rest).2) = true) ∧
    (¬ ((c.ParseOptionalCXXScopeSpecifier rest).1.isInvalid = false ∧
        ((rest.drop (c.ParseOptionalCXXScopeSpecifier rest).2).headD eofToken).kind =
          TokenKind.identifier) →
      c.isCXXTypeId (rest.drop (c.ParseOptionalCXXScopeSpecifier rest).2) = true →
      ∀ (DS : DeclSpec) (k : Nat) (D : Declarator) (m : Nat),
        c.ParseSpecifierQualifierList (rest.drop (c.ParseOptionalCXXScopeSpecifier rest).2) =
          (DS, k) →
        c.ParseDeclarator DS ((rest.drop (c.ParseOptionalCXXScopeSpecifier rest).2).drop k) =
          (D, m) →
        Event.ActOnReflectedId (c.ParseOptionalCXXScopeSpecifier rest).1
            ((rest.drop (c.ParseOptionalCXXScopeSpecifier rest).2).headD eofToken).loc
            ((rest.drop (c.ParseOptionalCXXScopeSpecifier rest).2).headD eofToken).ident ∉
          (ParseCXXReflectExpression c (startParser (kw :: lp :: rest))).2.log ∧
        Event.ParseDeclarator D ∈
          (ParseCXXReflectExpression c (startParser (kw :: lp :: rest))).2.log ∧
        (D.isInvalidType = true ∨ c.ActOnReflectedType D = none →
          (ParseCXXReflectExpression c (startParser (kw :: lp :: rest))).1 =
            ExprResult.ExprError) ∧
        (∀ Kind Entity (rp : Token), D.isInvalidType = false →
          c.ActOnReflectedType D = some (Kind, Entity) →
          rp = ((((rest.drop (c.ParseOptionalCXXScopeSpecifier rest).2).drop k).drop m).headD
            eofToken) →
          rp.kind = TokenKind.r_paren →
          (ParseCXXReflectExpression c (startParser (kw :: lp :: rest))).1 =
            c.ActOnCXXReflectExpression kw.loc (some Kind) (some Entity) lp.loc rp.loc)) := by
  obtain ⟨SS, n, rest1, t, hSS, hrest, ht, hpaths⟩ :=
    ParseReflectedOperand_paths c { toks := (kw :: lp :: rest).drop 2, log := [] }
  have hafter := ParseCXXReflectExpression_after_operand c (kw :: lp :: rest) kw lp rfl rfl hlp
  simp only [List.drop_succ_cons, List.drop_zero] at hSS hrest hpaths hafter
  rw [hSS]
  simp only []
  subst hrest ht
  generalize ParseCXXReflectExpression c (startParser (kw :: lp :: rest)) = r at hafter ⊢
  refine ⟨?_, ?_, ?_, ?_⟩
  · intro g1 g2 g3
    rcases hafter with ⟨P2, hP2, hr⟩ | ⟨K, E, P2, hP2, ⟨hcl, hr1, hr2⟩ | ⟨hcl, hr⟩⟩ <;>
    rcases hpaths with ⟨h1, h2, h3, h4⟩ | ⟨h1, h2, K1, E1, h3, h4⟩ | ⟨h1, h3, h4⟩ |
        ⟨h1, h3, DS, k, D, m, hDS, hD, ⟨t1, h4⟩ | ⟨t1, t3, h4⟩ | ⟨t1, K2, E2, t3, h4⟩⟩ <;>
      rw [h4] at hP2 <;> cases hP2 <;> simp_all
  · intro e he hshape
    rcases hafter with ⟨P2, hP2, hr⟩ | ⟨K, E, P2, hP2, ⟨hcl, hr1, hr2⟩ | ⟨hcl, hr⟩⟩ <;>
    rcases hpaths with ⟨h1, h2, h3, h4⟩ | ⟨h1, h2, K1, E1, h3, h4⟩ | ⟨h1, h3, h4⟩ |
        ⟨h1, h3, DS, k, D, m, hDS, hD, ⟨t1, h4⟩ | ⟨t1, t3, h4⟩ | ⟨t1, K2, E2, t3, h4⟩⟩ <;>
      rw [h4] at hP2 <;> cases hP2 <;>
      rcases hshape with rfl | rfl | ⟨D1, rfl⟩ | ⟨D1, rfl⟩ <;> simp_all <;>
      (cases hb : SS.isInvalid <;> simp_all)
  · intro e he hshape
    rcases hafter with ⟨P2, hP2, hr⟩ | ⟨K, E, P2, hP2, ⟨hcl, hr1, hr2⟩ | ⟨hcl, hr⟩⟩ <;>
    rcases hpaths with ⟨h1, h2, h3, h4⟩ | ⟨h1, h2, K1, E1, h3, h4⟩ | ⟨h1, h3, h4⟩ |
        ⟨h1, h3, DS, k, D, m, hDS, hD, ⟨t1, h4⟩ | ⟨t1, t3, h4⟩ | ⟨t1, K2, E2, t3, h4⟩⟩ <;>
      rw [h4] at hP2 <;> cases hP2 <;>
      rcases hshape with rfl | ⟨D1, rfl⟩ | ⟨D1, rfl⟩ <;> simp_all
  · intro g1 g2 DS0 k0 D0 m0 gDS gD
    refine ⟨?_, ?_, ?_, ?_⟩
    · rcases hafter with ⟨P2, hP2, hr⟩ | ⟨K, E, P2, hP2, ⟨hcl, hr1, hr2⟩ | ⟨hcl, hr⟩⟩ <;>
      rcases hpaths with ⟨h1, h2, h3, h4⟩ | ⟨h1, h2, K1, E1, h3, h4⟩ | ⟨h1, h3, h4⟩ |
          ⟨h1, h3, DS, k, D, m, hDS, hD, ⟨t1, h4⟩ | ⟨t1, t3, h4⟩ | ⟨t1, K2, E2, t3, h4⟩⟩ <;>
        rw [h4] at hP2 <;> cases hP2 <;> simp_all
    · rcases hafter with ⟨P2, hP2, hr⟩ | ⟨K, E, P2, hP2, ⟨hcl, hr1, hr2⟩ | ⟨hcl, hr⟩⟩ <;>
      rcases hpaths with ⟨h1, h2, h3, h4⟩ | ⟨h1, h2, K1, E1, h3, h4⟩ | ⟨h1, h3, h4⟩ |
          ⟨h1, h3, DS, k, D, m, hDS, hD, ⟨t1, h4⟩ | ⟨t1, t3, h4⟩ | ⟨t1, K2, E2, t3, h4⟩⟩ <;>
        rw [h4] at hP2 <;> cases hP2 <;> simp_all
    · intro g3
      rcases hafter with ⟨P2, hP2, hr⟩ | ⟨K, E, P2, hP2, ⟨hcl, hr1, hr2⟩ | ⟨hcl, hr⟩⟩ <;>
      rcases hpaths with ⟨h1, h2, h3, h4⟩ | ⟨h1, h2, K1, E1, h3, h4⟩ | ⟨h1, h3, h4⟩ |
          ⟨h1, h3, DS, k, D, m, hDS, hD, ⟨t1, h4⟩ | ⟨t1, t3, h4⟩ | ⟨t1, K2, E2, t3, h4⟩⟩ <;>
        rw [h4] at hP2 <;> cases hP2 <;> simp_all
    · intro Kind Entity rp g3 g4 g5 g6
      rcases hafter with ⟨P2, hP2, hr⟩ | ⟨K, E, P2, hP2, ⟨hcl, hr1, hr2⟩ | ⟨hcl, hr⟩⟩ <;>
      rcases hpaths with ⟨h1, h2, h3, h4⟩ | ⟨h1, h2, K1, E1, h3, h4⟩ | ⟨h1, h3, h4⟩ |
          ⟨h1, h3, DS, k, D, m, hDS, hD, ⟨t1, h4⟩ | ⟨t1, t3, h4⟩ | ⟨t1, K2, E2, t3, h4⟩⟩ <;>
        rw [h4] at hP2 <;> cases hP2 <;> simp_all

/-- C4, amended, on `reflexpr(T)`: the parse fails with a log of the
scope-specifier parser and `ActOnReflectedId` only. -/
theorem ParseCXXReflectExpression_no_fallback_witness :
    (mkTok TokenKind.kw_reflexpr 0).kind = TokenKind.kw_reflexpr ∧
    (mkTok TokenKind.l_paren 1).kind = TokenKind.l_paren ∧
    (ParseCXXReflectExpression sampleTypeName (startParser
        (mkTok TokenKind.kw_reflexpr 0 :: mkTok TokenKind.l_paren 1 ::
          toksTypeName.drop 2))).1 = ExprResult.ExprError ∧
    (ParseCXXReflectExpression sampleTypeName (startParser
        (mkTok TokenKind.kw_reflexpr 0 :: mkTok TokenKind.l_paren 1 ::
          toksTypeName.drop 2))).2.log =
      [Event.ParseOptionalCXXScopeSpecifier,
        Event.ActOnReflectedId { isInvalid := false, scope := [] } 2 "T"] :=
  ⟨rfl, rfl,
    (ParseCXXReflectExpression_no_fallback sampleTypeName (mkTok TokenKind.kw_reflexpr 0)
      (mkTok TokenKind.l_paren 1) (toksTypeName.drop 2) rfl rfl).1
        (by decide) (by decide) (by decide)⟩

/-- C2, the code at the failing input: after `reflexpr (`, when the scope
parser consumes nothing and reports no error, the next token is the closing
parenthesis, and the tokens do not begin a type-id, neither alternative runs,
and `ActOnCXXReflectExpression` is still called, with `Kind` and `Entity`
never assigned; the parse returns its result. -/
theorem ParseCXXReflectExpression_unassigned_operand (c : Collaborators) (kw lp rp : Token)
    (rest : List Token) (SS : CXXScopeSpec) (hkw : kw.kind = TokenKind.kw_reflexpr)
    (hlp : lp.kind = TokenKind.l_paren) (hrp : rp.kind = TokenKind.r_paren)
    (hSS : c.ParseOptionalCXXScopeSpecifier (rp :: rest) = (SS, 0))
    (hty : c.isCXXTypeId (rp :: rest) = false) :
    ParseCXXReflectExpression c (startParser (kw :: lp :: rp :: rest)) =
      (c.ActOnCXXReflectExpression kw.loc none none lp.loc rp.loc,
        { toks := rest,
          log := [Event.ParseOptionalCXXScopeSpecifier, Event.isCXXTypeId,
            Event.ActOnCXXReflectExpression kw.loc none none lp.loc rp.loc] }) := by
  obtain ⟨SS1, n, rest1, t, hSS1, hrest, ht, hpaths⟩ :=
    ParseReflectedOperand_paths c { toks := (kw :: lp :: rp :: rest).drop 2, log := [] }
  have hafter := ParseCXXReflectExpression_after_operand c (kw :: lp :: rp :: rest) kw lp
    rfl rfl hlp
  simp only [List.drop_succ_cons, List.drop_zero] at hSS1 hrest hpaths hafter
  rw [hSS] at hSS1
  cases hSS1
  subst hrest
  rw [ht] at hpaths
  clear ht
  generalize ParseCXXReflectExpression c (startParser (kw :: lp :: rp :: rest)) = r at hafter ⊢
  rcases hafter with ⟨P2, hP2, hr⟩ | ⟨K, E, P2, hP2, ⟨hcl, hr1, hr2⟩ | ⟨hcl, hr⟩⟩ <;>
  rcases hpaths with ⟨h1, h2, h3, h4⟩ | ⟨h1, h2, K1, E1, h3, h4⟩ | ⟨h1, h3, h4⟩ |
      ⟨h1, h3, DS, k, D, m, hDS, hD, ⟨t1, h4⟩ | ⟨t1, t3, h4⟩ | ⟨t1, K2, E2, t3, h4⟩⟩ <;>
    rw [h4] at hP2 <;> cases hP2 <;> simp_all

/-- C2 on `reflexpr()`. -/
theorem ParseCXXReflectExpression_unassigned_operand_witness :
    (mkTok TokenKind.kw_reflexpr 0).kind = TokenKind.kw_reflexpr ∧
    (mkTok TokenKind.l_paren 1).kind = TokenKind.l_paren ∧
    (mkTok TokenKind.r_paren 2).kind = TokenKind.r_paren ∧
    ParseCXXReflectExpression sample (startParser
        [mkTok TokenKind.kw_reflexpr 0, mkTok TokenKind.l_paren 1, mkTok TokenKind.r_paren 2,
          mkTok TokenKind.semi 3]) =
      (ExprResult.Expr 0,
        { toks := [mkTok TokenKind.semi 3],
          log := [Event.ParseOptionalCXXScopeSpecifier, Event.isCXXTypeId,
            Event.ActOnCXXReflectExpression 0 none none 1 2] }) :=
  ⟨rfl, rfl, rfl,
    ParseCXXReflectExpression_unassigned_operand sample (mkTok TokenKind.kw_reflexpr 0)
      (mkTok TokenKind.l_paren 1) (mkTok TokenKind.r_paren 2) [mkTok TokenKind.semi 3]
      { isInvalid := false, scope := [] } rfl rfl rfl (by decide) (by decide)⟩

/-- C6, the code at the failing input `reflexpr(nope);` with `nope`
undeclared: the parse fails after the opening parenthesis was consumed and
returns with the closing parenthesis still unconsumed, while the sibling
`ParseReflectionTrait`, failing inside `__reflect_index(;)`, has skipped to
and consumed its closing parenthesis. -/
theorem ParseCXXReflectExpression_leaves_close_paren :
    ParseCXXReflectExpression sample (startParser toksUndeclared) =
      (ExprResult.ExprError,
        { toks := [mkTok TokenKind.r_paren 3, mkTok TokenKind.semi 4],
          log := [Event.ParseOptionalCXXScopeSpecifier,
            Event.ActOnReflectedId { isInvalid := false, scope := [] } 2 "nope"] }) ∧
    ParseReflectionTrait sample sampleTraits (startParser
        [mkTok (TokenKind.kw "__reflect_index") 0, mkTok TokenKind.l_paren 1,
          mkTok TokenKind.semi 2, mkTok TokenKind.r_paren 3, mkTok TokenKind.semi 4]) =
      some (ExprResult.ExprError,
        { toks := [mkTok TokenKind.semi 4], log := [Event.ParseConstantExpression] }) := by
  decide

/-! ## Theorems: ParseReflectionTrait -/

theorem ArgList_length_pos (c : Collaborators) {toks : List Token} {Args : List Expr}
    {rest : List Token} (h : ArgList c toks Args rest) : 0 < Args.length := by
  cases h <;> simp

/-- A comma at the head means there is a token to consume. -/
theorem drop_one_length_lt (toks : List Token)
    (h : (toks.headD eofToken).kind = TokenKind.comma) : (toks.drop 1).length < toks.length := by
  cases toks with
  | nil => simp [eofToken] at h
  | cons t ts => simp

/-- The argument loop never uses up a fuel above the number of tokens. -/
theorem ParseReflectionTraitArgs_fuel (c : Collaborators) (fuel : Nat) :
    ∀ (P : Parser) (Args : List Expr) (Commas : Nat), P.toks.length < fuel →
      ParseReflectionTraitArgs c fuel P Args Commas ≠ ArgsResult.OutOfFuel := by
  induction fuel with
  | zero => intro P Args Commas h; simp at h
  | succ fuel ih =>
    intro P Args Commas h
    unfold ParseReflectionTraitArgs
    simp only [TryConsumeToken]
    cases hE : (c.ParseConstantExpression P.toks).1 with
    | ExprError => simp
    | Expr e =>
      simp only []
      split_ifs with hc
      · apply ih
        have h1 := drop_one_length_lt _ hc
        simp only [Parser.advance_toks, Parser.emit_toks, List.length_drop] at h1 ⊢
        omega
      · simp

/-- What the argument loop adds: arguments at the end of `Args`, one more
than the commas it consumes, and only `ParseConstantExpression` events. -/
theorem ParseReflectionTraitArgs_done (c : Collaborators) (fuel : Nat) :
    ∀ (P : Parser) (Args : List Expr) (Commas : Nat) (A : List Expr) (C : Nat) (P1 : Parser),
      ParseReflectionTraitArgs c fuel P Args Commas = ArgsResult.Done A C P1 →
      A.length + Commas = Args.length + C + 1 ∧
      ∀ e ∈ P1.log, e ∈ P.log ∨ e = Event.ParseConstantExpression := by
  induction fuel with
  | zero => intro P Args Commas A C P1 h; simp [ParseReflectionTraitArgs] at h
  | succ fuel ih =>
    intro P Args Commas A C P1 h
    unfold ParseReflectionTraitArgs at h
    simp only [TryConsumeToken] at h
    cases hE : (c.ParseConstantExpression P.toks).1 with
    | ExprError => simp [hE] at h
    | Expr e =>
      simp only [hE] at h
      split_ifs at h with hc
      · obtain ⟨h1, h2⟩ := ih _ _ _ _ _ _ h
        refine ⟨by simp at h1; omega, ?_⟩
        intro ev hev
        have := h2 ev hev
        simp at this
        tauto
      · simp only [ArgsResult.Done.injEq] at h
        obtain ⟨rfl, rfl, rfl⟩ := h
        refine ⟨by simp; omega, ?_⟩
        intro ev hev
        simp at hev
        tauto

theorem ParseReflectionTraitArgs_invalid (c : Collaborators) (fuel : Nat) :
    ∀ (P : Parser) (Args : List Expr) (Commas : Nat) (P1 : Parser),
      ParseReflectionTraitArgs c fuel P Args Commas = ArgsResult.Invalid P1 →
      ∀ e ∈ P1.log, e ∈ P.log ∨ e = Event.ParseConstantExpression := by
  induction fuel with
  | zero => intro P Args Commas P1 h; simp [ParseReflectionTraitArgs] at h
  | succ fuel ih =>
    intro P Args Commas P1 h
    unfold ParseReflectionTraitArgs at h
    simp only [TryConsumeToken] at h
    cases hE : (c.ParseConstantExpression P.toks).1 with
    | ExprError =>
      simp only [hE, ArgsResult.Invalid.injEq] at h
      subst h
      intro ev hev
      simp at hev
      tauto
    | Expr e =>
      simp only [hE] at h
      split_ifs at h with hc
      · intro ev hev
        have := ih _ _ _ _ h ev hev
        simp at this
        tauto

/-- On an argument list in the sense of `ArgList` the loop ends with exactly
those arguments, in source order. -/
theorem ParseReflectionTraitArgs_of_ArgList (c : Collaborators) {toks : List Token}
    {Args : List Expr} {rest : List Token} (h : ArgList c toks Args rest) :
    ∀ (fuel : Nat) (log : List Event) (Args0 : List Expr) (Commas : Nat), toks.length < fuel →
      ParseReflectionTraitArgs c fuel { toks := toks, log := log } Args0 Commas =
        ArgsResult.Done (Args0 ++ Args) (Commas + (Args.length - 1))
          { toks := rest,
            log := log ++ List.replicate Args.length Event.ParseConstantExpression } := by
  induction h with
  | last toks e n hE hc =>
    intro fuel log Args0 Commas hfuel
    cases fuel with
    | zero => simp at hfuel
    | succ fuel =>
      unfold ParseReflectionTraitArgs
      simp only [TryConsumeToken, hE]
      have hc1 : ¬ (((({ toks := toks, log := log } : Parser).emit
          Event.ParseConstantExpression).advance n).Tok.kind = TokenKind.comma) := hc
      rw [if_neg hc1]
      simp [Parser.emit, Parser.advance]
  | more toks e n Args rest hE hc hrest ih =>
    intro fuel log Args0 Commas hfuel
    cases fuel with
    | zero => simp at hfuel
    | succ fuel =>
      unfold ParseReflectionTraitArgs
      simp only [TryConsumeToken, hE]
      have hc1 : ((({ toks := toks, log := log } : Parser).emit
          Event.ParseConstantExpression).advance n).Tok.kind = TokenKind.comma := hc
      rw [if_pos hc1]
      have hlen : ((toks.drop n).drop 1).length < fuel := by
        have h1 := drop_one_length_lt _ hc
        simp only [List.length_drop] at h1 ⊢
        omega
      have hpos := ArgList_length_pos c hrest
      have := ih fuel (log ++ [Event.ParseConstantExpression]) (Args0 ++ [e]) (Commas + 1) hlen
      simp only [Parser.emit, Parser.advance] at this ⊢
      rw [this]
      simp only [List.length_cons, List.append_assoc, List.singleton_append,
        List.replicate_succ, ArgsResult.Done.injEq, Parser.mk.injEq, true_and]
      exact ⟨by omega, trivial⟩

/-- The two switches agree: a keyword of arity 1 comes from the unary table
and maps to its `URT_` id, one of arity 2 from the binary table and maps to
its `BRT_` id. -/
theorem ReflectionTraitKind_of_arity (defs : List TraitEntry) (kind : TokenKind) (Arity : Nat)
    (h : ReflectionTraitArity defs kind = some Arity) :
    (Arity = 1 ∧ ∃ Spelling K, kind = TokenKind.kw Spelling ∧
      TraitEntry.REFLECTION_TRAIT_1 Spelling K ∈ defs ∧
      ReflectionTraitKind defs kind = some (ReflectionTrait.URT K)) ∨
    (Arity = 2 ∧ ∃ Spelling K, kind = TokenKind.kw Spelling ∧
      TraitEntry.REFLECTION_TRAIT_2 Spelling K ∈ defs ∧
      ReflectionTraitKind defs kind = some (ReflectionTrait.BRT K)) := by
  induction defs with
  | nil => simp [ReflectionTraitArity] at h
  | cons entry defs ih =>
    cases entry with
    | REFLECTION_TRAIT_1 S K =>
      simp only [ReflectionTraitArity, TraitEntry.REFLECTION_TRAIT] at h
      by_cases hk : kind = TokenKind.kw S
      · simp only [hk, if_true, Option.some.injEq] at h
        left
        exact ⟨h.symm, S, K, hk, by simp, by simp [ReflectionTraitKind, hk]⟩
      · simp only [hk, if_false] at h
        rcases ih h with ⟨h1, S1, K1, h2, h3, h4⟩ | ⟨h1, S1, K1, h2, h3, h4⟩
        · left
          exact ⟨h1, S1, K1, h2, by simp [h3], by simp [ReflectionTraitKind, hk, h4]⟩
        · right
          exact ⟨h1, S1, K1, h2, by simp [h3], by simp [ReflectionTraitKind, hk, h4]⟩
    | REFLECTION_TRAIT_2 S K =>
      simp only [ReflectionTraitArity, TraitEntry.REFLECTION_TRAIT] at h
      by_cases hk : kind = TokenKind.kw S
      · simp only [hk, if_true, Option.some.injEq] at h
        right
        exact ⟨h.symm, S, K, hk, by simp, by simp [ReflectionTraitKind, hk]⟩
      · simp only [hk, if_false] at h
        rcases ih h with ⟨h1, S1, K1, h2, h3, h4⟩ | ⟨h1, S1, K1, h2, h3, h4⟩
        · left
          exact ⟨h1, S1, K1, h2, by simp [h3], by simp [ReflectionTraitKind, hk, h4]⟩
        · right
          exact ⟨h1, S1, K1, h2, by simp [h3], by simp [ReflectionTraitKind, hk, h4]⟩

/-- The events `consumeClose` can add to the log are its two diagnostics. -/
theorem consumeClose_log (T : BalancedDelimiterTracker) (P : Parser) :
    ∀ e ∈ (T.consumeClose P).2.2.log, e ∈ P.log ∨
      (∃ Loc, e = Event.Diag Loc DiagID.err_expected [] []) ∨
      (∃ Loc, e = Event.Diag Loc DiagID.note_matching [] []) := by
  intro e he
  by_cases h : P.Tok.kind = TokenKind.r_paren
  · rw [consumeClose_ok _ _ h] at he
    exact Or.inl he
  · rw [(consumeClose_err T P h).2] at he
    simp only [List.mem_append, List.mem_cons, List.mem_singleton, List.not_mem_nil,
      or_false] at he
    rcases he with he | he | he
    · exact Or.inl he
    · exact Or.inr (Or.inl ⟨_, he⟩)
    · exact Or.inr (Or.inr ⟨_, he⟩)

theorem skipToEnd_log (T : BalancedDelimiterTracker) (P : Parser) :
    ∀ e ∈ (T.skipToEnd P).2.log, e ∈ P.log ∨
      (∃ Loc, e = Event.Diag Loc DiagID.err_expected [] []) ∨
      (∃ Loc, e = Event.Diag Loc DiagID.note_matching [] []) := by
  intro e he
  exact consumeClose_log T { P with toks := SkipUntil 0 P.toks } e he

/-- The result of `ParseReflectionTrait` on `K ( Args ) rest`, up to the
arity check. -/
theorem ParseReflectionTrait_of_ArgList (c : Collaborators) (defs : List TraitEntry)
    (kw lp rp : Token) (toks rest : List Token) (Args : List Expr)
    (hlp : lp.kind = TokenKind.l_paren) (hargs : ArgList c toks Args (rp :: rest))
    (hrp : rp.kind = TokenKind.r_paren) :
    ParseReflectionTrait c defs (startParser (kw :: lp :: toks)) =
      match ReflectionTraitArity defs kw.kind with
      | none => none
      | some Arity =>
        if Args.length ≠ Arity then
          some (ExprResult.ExprError,
            { toks := rest,
              log := List.replicate Args.length Event.ParseConstantExpression ++
                [Event.Diag rp.loc DiagID.err_type_trait_arity
                  [(Arity : Int), 0, if Arity > 1 then 1 else 0, (Args.length : Int)]
                  [kw.loc]] })
        else
          match ReflectionTraitKind defs kw.kind with
          | none => none
          | some Trait =>
            some (c.ActOnReflectionTrait kw.loc Trait Args rp.loc,
              { toks := rest,
                log := List.replicate Args.length Event.ParseConstantExpression ++
                  [Event.ActOnReflectionTrait kw.loc Trait Args rp.loc] }) := by
  unfold ParseReflectionTrait
  simp only [ConsumeToken]
  have hopen : ((startParser (kw :: lp :: toks)).advance 1).Tok.kind = TokenKind.l_paren := hlp
  rw [expectAndConsume_ok _ _ _ hopen]
  simp only [Bool.false_eq_true, if_false]
  have hP : ((startParser (kw :: lp :: toks)).advance 1).advance 1 =
      { toks := toks, log := [] } := rfl
  rw [hP, ParseReflectionTraitArgs_of_ArgList c hargs _ _ _ _ (Nat.lt_succ_self _)]
  simp only []
  have hclose : (Parser.mk (rp :: rest)
      ([] ++ List.replicate Args.length Event.ParseConstantExpression)).Tok.kind =
      TokenKind.r_paren := hrp
  rw [consumeClose_ok _ _ hclose]
  simp only [Bool.false_eq_true, if_false]
  rfl

/-- On any tokens: an `ActOnReflectionTrait` call in the log of
`ParseReflectionTrait` has as many arguments as the arity of the keyword, and
an arity diagnostic in the log reports that arity and an actual count that is
at least one and differs from it. -/
theorem ParseReflectionTrait_events (c : Collaborators) (defs : List TraitEntry)
    (toks : List Token) (r : ExprResult × Parser)
    (h : ParseReflectionTrait c defs (startParser toks) = some r) :
    (∀ Loc Trait A RPLoc, Event.ActOnReflectionTrait Loc Trait A RPLoc ∈ r.2.log →
      ReflectionTraitArity defs (toks.headD eofToken).kind = some A.length) ∧
    (∀ Loc args ranges, Event.Diag Loc DiagID.err_type_trait_arity args ranges ∈ r.2.log →
      ∃ Arity actual : Nat, ReflectionTraitArity defs (toks.headD eofToken).kind = some Arity ∧
        0 < actual ∧ actual ≠ Arity ∧
        args = [(Arity : Int), 0, if Arity > 1 then 1 else 0, (actual : Int)]) := by
  unfold ParseReflectionTrait at h
  simp only [ConsumeToken] at h
  have hTok : (startParser toks).Tok = toks.headD eofToken := rfl
  rw [hTok] at h
  by_cases hopen : ((startParser toks).advance 1).Tok.kind = TokenKind.l_paren
  · rw [expectAndConsume_ok _ _ _ hopen] at h
    simp only [Bool.false_eq_true, if_false] at h
    cases hloop : ParseReflectionTraitArgs c
        ((((startParser toks).advance 1).advance 1).toks.length + 1)
        (((startParser toks).advance 1).advance 1) [] 0 with
    | OutOfFuel =>
      rw [hloop] at h
      simp only [reduceCtorEq] at h
    | Invalid P1 =>
      simp only [hloop, Option.some.injEq] at h
      subst h
      have hinv := ParseReflectionTraitArgs_invalid c _ _ _ _ _ hloop
      constructor
      · intro Loc Trait A RPLoc hmem
        rcases skipToEnd_log _ _ _ hmem with h1 | ⟨_, h1⟩ | ⟨_, h1⟩
        · rcases hinv _ h1 with h2 | h2
          · simp [startParser] at h2
          · simp at h2
        · simp at h1
        · simp at h1
      · intro Loc args ranges hmem
        rcases skipToEnd_log _ _ _ hmem with h1 | ⟨_, h1⟩ | ⟨_, h1⟩
        · rcases hinv _ h1 with h2 | h2
          · simp [startParser] at h2
          · simp at h2
        · simp at h1
        · simp at h1
    | Done A C P1 =>
      simp only [hloop] at h
      obtain ⟨hlen, hlog⟩ := ParseReflectionTraitArgs_done c _ _ _ _ _ _ _ hloop
      have hlog1 : ∀ e ∈ P1.log, e = Event.ParseConstantExpression := by
        intro e he
        rcases hlog e he with h2 | h2
        · simp [startParser] at h2
        · exact h2
      by_cases hclose : P1.Tok.kind = TokenKind.r_paren
      · rw [consumeClose_ok _ _ hclose] at h
        simp only [Bool.false_eq_true, if_false] at h
        cases hAr : ReflectionTraitArity defs (toks.headD eofToken).kind with
        | none =>
          rw [hAr] at h
          simp only [reduceCtorEq] at h
        | some Arity =>
          simp only [hAr] at h
          by_cases hne : A.length ≠ Arity
          · rw [if_pos hne] at h
            simp only [Option.some.injEq] at h
            subst h
            constructor
            · intro Loc Trait A1 RPLoc hmem
              simp only [Parser.emit_log, Parser.advance_log, List.mem_append,
                List.mem_singleton] at hmem
              rcases hmem with h1 | h1
              · have := hlog1 _ h1
                simp at this
              · simp at h1
            · intro Loc args ranges hmem
              simp only [Parser.emit_log, Parser.advance_log, List.mem_append,
                List.mem_singleton] at hmem
              rcases hmem with h1 | h1
              · have := hlog1 _ h1
                simp at this
              · simp only [Event.Diag.injEq] at h1
                refine ⟨Arity, A.length, rfl, ?_, hne, h1.2.2.1⟩
                simp at hlen
                omega
          · rw [if_neg hne] at h
            cases hK : ReflectionTraitKind defs (toks.headD eofToken).kind with
            | none =>
              rw [hK] at h
              simp only [reduceCtorEq] at h
            | some Trait =>
              simp only [hK, Option.some.injEq] at h
              subst h
              have heq : A.length = Arity := by simpa using hne
              constructor
              · intro Loc Trait1 A1 RPLoc hmem
                simp only [Parser.emit_log, Parser.advance_log, List.mem_append,
                  List.mem_singleton] at hmem
                rcases hmem with h1 | h1
                · have := hlog1 _ h1
                  simp at this
                · simp only [Event.ActOnReflectionTrait.injEq] at h1
                  rw [h1.2.2.1, heq]
              · intro Loc args ranges hmem
                simp only [Parser.emit_log, Parser.advance_log, List.mem_append,
                  List.mem_singleton] at hmem
                rcases hmem with h1 | h1
                · have := hlog1 _ h1
                  simp at this
                · simp at h1
      · obtain ⟨hc1, hc2⟩ := consumeClose_err
          { LOpen := ((startParser toks).advance 1).Tok.loc, LClose := 0 } P1 hclose
        simp only [hc1, if_true, Option.some.injEq] at h
        subst h
        constructor
        · intro Loc Trait A1 RPLoc hmem
          simp only [hc2, List.mem_append, List.mem_cons, List.mem_singleton,
            List.not_mem_nil, or_false] at hmem
          rcases hmem with h1 | h1 | h1
          · have := hlog1 _ h1
            simp at this
          · simp at h1
          · simp at h1
        · intro Loc args ranges hmem
          simp only [hc2, List.mem_append, List.mem_cons, List.mem_singleton,
            List.not_mem_nil, or_false] at hmem
          rcases hmem with h1 | h1 | h1
          · have := hlog1 _ h1
            simp at this
          · simp at h1
          · simp at h1
  · rw [expectAndConsume_err _ _ _ hopen] at h
    simp only [if_true, Option.some.injEq] at h
    subst h
    constructor
    · intro Loc Trait A RPLoc hmem
      simp [startParser] at hmem
    · intro Loc args ranges hmem
      simp [startParser] at hmem

/-- For a keyword of the trait table `ParseReflectionTrait` always returns:
neither the fuel of the argument loop nor `llvm_unreachable` is reached. -/
theorem ParseReflectionTrait_total (c : Collaborators) (defs : List TraitEntry)
    (P : Parser) (Arity : Nat) (hK : ReflectionTraitArity defs P.Tok.kind = some Arity) :
    ∃ r, ParseReflectionTrait c defs P = some r := by
  have hKind : ∃ Trait, ReflectionTraitKind defs P.Tok.kind = some Trait := by
    rcases ReflectionTraitKind_of_arity defs _ _ hK with ⟨-, -, K, -, -, h⟩ | ⟨-, -, K, -, -, h⟩
    · exact ⟨_, h⟩
    · exact ⟨_, h⟩
  obtain ⟨Trait, hTrait⟩ := hKind
  unfold ParseReflectionTrait
  simp only [ConsumeToken, hK, hTrait]
  by_cases h1 : (BalancedDelimiterTracker.expectAndConsume { LOpen := 0, LClose := 0 }
      (P.advance 1) DiagID.err_expected).1 = true
  · rw [if_pos h1]
    exact ⟨_, rfl⟩
  · rw [if_neg h1]
    cases hloop : ParseReflectionTraitArgs c
        ((BalancedDelimiterTracker.expectAndConsume { LOpen := 0, LClose := 0 } (P.advance 1)
          DiagID.err_expected).2.2.toks.length + 1)
        (BalancedDelimiterTracker.expectAndConsume { LOpen := 0, LClose := 0 } (P.advance 1)
          DiagID.err_expected).2.2 [] 0 with
    | OutOfFuel => exact absurd hloop (ParseReflectionTraitArgs_fuel c _ _ _ _ (Nat.lt_succ_self _))
    | Invalid P1 => exact ⟨_, rfl⟩
    | Done A C P1 =>
      simp only []
      by_cases h2 : (BalancedDelimiterTracker.consumeClose
          (BalancedDelimiterTracker.expectAndConsume { LOpen := 0, LClose := 0 } (P.advance 1)
            DiagID.err_expected).2.1 P1).1 = true
      · rw [if_pos h2]
        exact ⟨_, rfl⟩
      · rw [if_neg h2]
        by_cases h3 : A.length ≠ Arity
        · rw [if_pos h3]
          exact ⟨_, rfl⟩
        · rw [if_neg h3]
          exact ⟨_, rfl⟩

/-- The tokens `a, b)` are an argument list of two expressions. -/
theorem toksTwoArgs_ArgList :
    ArgList sample toksTwoArgs [2, 4] (mkTok TokenKind.r_paren 5 :: [mkTok TokenKind.semi 6]) :=
  ArgList.more toksTwoArgs 2 1 [4] _ (by decide) (by decide)
    (ArgList.last ((toksTwoArgs.drop 1).drop 1) 4 1 (by decide) (by decide))

/-- C1: arity is checked before the semantic action.  For a trait keyword
`K` of arity `Arity`, followed by `(`, constant expressions `Args` separated by
commas, and `)`: if `Args.length ≠ Arity`, `ParseReflectionTrait` returns
`ExprError`, its log ends with the arity diagnostic at the closing parenthesis
carrying `Arity` and `Args.length`, and holds no `ActOnReflectionTrait` call.
And on any tokens behind `K`, every `ActOnReflectionTrait` call it makes has
exactly `Arity` arguments. -/
theorem ParseReflectionTrait_arity_mismatch (c : Collaborators) (defs : List TraitEntry)
    (kw lp rp : Token) (toks rest : List Token) (Args : List Expr) (Arity : Nat)
    (hlp : lp.kind = TokenKind.l_paren) (hargs : ArgList c toks Args (rp :: rest))
    (hrp : rp.kind = TokenKind.r_paren)
    (hK : ReflectionTraitArity defs kw.kind = some Arity) (hne : Args.length ≠ Arity) :
    ParseReflectionTrait c defs (startParser (kw :: lp :: toks)) =
      some (ExprResult.ExprError,
        { toks := rest,
          log := List.replicate Args.length Event.ParseConstantExpression ++
            [Event.Diag rp.loc DiagID.err_type_trait_arity
              [(Arity : Int), 0, if Arity > 1 then 1 else 0, (Args.length : Int)] [kw.loc]] }) ∧
    (∀ r, ParseReflectionTrait c defs (startParser (kw :: lp :: toks)) = some r →
      ∀ Loc Trait A RPLoc, Event.ActOnReflectionTrait Loc Trait A RPLoc ∉ r.2.log) ∧
    (∀ toks1 r, ParseReflectionTrait c defs (startParser (kw :: toks1)) = some r →
      ∀ Loc Trait A RPLoc, Event.ActOnReflectionTrait Loc Trait A RPLoc ∈ r.2.log →
        A.length = Arity) := by
  have heval := ParseReflectionTrait_of_ArgList c defs kw lp rp toks rest Args hlp hargs hrp
  rw [hK] at heval
  simp only [] at heval
  rw [if_pos hne] at heval
  refine ⟨heval, ?_, ?_⟩
  · intro r hr Loc Trait A RPLoc hmem
    rw [heval] at hr
    cases hr
    simp only [List.mem_append, List.mem_replicate, List.mem_singleton] at hmem
    rcases hmem with h1 | h1
    · simp at h1
    · simp at h1
  · intro toks1 r hr Loc Trait A RPLoc hmem
    have := (ParseReflectionTrait_events c defs (kw :: toks1) r hr).1 Loc Trait A RPLoc hmem
    simp only [List.headD_cons] at this
    rw [hK] at this
    simpa using this.symm

/-- C1 on `__reflect_index(a, b)`: a unary trait given two arguments reports
expected 1, actual 2. -/
theorem ParseReflectionTrait_arity_mismatch_witness :
    (mkTok TokenKind.l_paren 1).kind = TokenKind.l_paren ∧
    (mkTok TokenKind.r_paren 5).kind = TokenKind.r_paren ∧
    ReflectionTraitArity sampleTraits (mkTok (TokenKind.kw "__reflect_index") 0).kind = some 1 ∧
    ([2, 4] : List Expr).length ≠ 1 ∧
    ParseReflectionTrait sample sampleTraits (startParser
        (mkTok (TokenKind.kw "__reflect_index") 0 :: mkTok TokenKind.l_paren 1 :: toksTwoArgs)) =
      some (ExprResult.ExprError,
        { toks := [mkTok TokenKind.semi 6],
          log := [Event.ParseConstantExpression, Event.ParseConstantExpression,
            Event.Diag 5 DiagID.err_type_trait_arity [1, 0, 0, 2] [0]] }) :=
  ⟨rfl, rfl, by decide, by decide,
    (ParseReflectionTrait_arity_mismatch sample sampleTraits
      (mkTok (TokenKind.kw "__reflect_index") 0) (mkTok TokenKind.l_paren 1)
      (mkTok TokenKind.r_paren 5) toksTwoArgs [mkTok TokenKind.semi 6] [2, 4] 1 rfl
      toksTwoArgs_ArgList rfl (by decide) (by decide)).1⟩

/-- C10: a well-formed trait invocation.  For a trait keyword `K` followed by
`(`, exactly `ReflectionTraitArity(K)` constant expressions `Args` separated by
commas, and `)`, `ParseReflectionTrait` returns the result of
`ActOnReflectionTrait(keyword location, ReflectionTraitKind(K), Args, location
of the closing parenthesis)` with `Args` in source order; the trait id is the
`URT_` id of the unary entry of `K` when the arity is 1 and the `BRT_` id of
its binary entry when the arity is 2; and the argument loop ends with `Args`
having consumed one comma fewer than there are arguments. -/
theorem ParseReflectionTrait_well_formed (c : Collaborators) (defs : List TraitEntry)
    (kw lp rp : Token) (toks rest : List Token) (Args : List Expr)
    (hlp : lp.kind = TokenKind.l_paren) (hargs : ArgList c toks Args (rp :: rest))
    (hrp : rp.kind = TokenKind.r_paren)
    (hK : ReflectionTraitArity defs kw.kind = some Args.length) :
    ∃ Trait, ReflectionTraitKind defs kw.kind = some Trait ∧
      ParseReflectionTrait c defs (startParser (kw :: lp :: toks)) =
        some (c.ActOnReflectionTrait kw.loc Trait Args rp.loc,
          { toks := rest,
            log := List.replicate Args.length Event.ParseConstantExpression ++
              [Event.ActOnReflectionTrait kw.loc Trait Args rp.loc] }) ∧
      ((Args.length = 1 ∧ ∃ Spelling K, kw.kind = TokenKind.kw Spelling ∧
          TraitEntry.REFLECTION_TRAIT_1 Spelling K ∈ defs ∧ Trait = ReflectionTrait.URT K) ∨
       (Args.length = 2 ∧ ∃ Spelling K, kw.kind = TokenKind.kw Spelling ∧
          TraitEntry.REFLECTION_TRAIT_2 Spelling K ∈ defs ∧ Trait = ReflectionTrait.BRT K)) ∧
      ∃ Commas P1,
        ParseReflectionTraitArgs c (toks.length + 1) { toks := toks, log := [] } [] 0 =
          ArgsResult.Done Args Commas P1 ∧ Args.length = Commas + 1 := by
  have heval := ParseReflectionTrait_of_ArgList c defs kw lp rp toks rest Args hlp hargs hrp
  rw [hK] at heval
  simp only [ne_eq, not_true_eq_false, if_false] at heval
  have hloop := ParseReflectionTraitArgs_of_ArgList c hargs (toks.length + 1) [] [] 0
    (Nat.lt_succ_self _)
  have hpos := ArgList_length_pos c hargs
  rcases ReflectionTraitKind_of_arity defs kw.kind Args.length hK with
    ⟨h1, S, K, h2, h3, h4⟩ | ⟨h1, S, K, h2, h3, h4⟩
  · refine ⟨ReflectionTrait.URT K, h4, ?_, Or.inl ⟨h1, S, K, h2, h3, rfl⟩,
      0 + (Args.length - 1), _, hloop, ?_⟩
    · rw [heval, h4]
    · omega
  · refine ⟨ReflectionTrait.BRT K, h4, ?_, Or.inr ⟨h1, S, K, h2, h3, rfl⟩,
      0 + (Args.length - 1), _, hloop, ?_⟩
    · rw [heval, h4]
    · omega

/-- C10 on `__reflect_pair(a, b)`. -/
theorem ParseReflectionTrait_well_formed_witness :
    (mkTok TokenKind.l_paren 1).kind = TokenKind.l_paren ∧
    (mkTok TokenKind.r_paren 5).kind = TokenKind.r_paren ∧
    ReflectionTraitArity sampleTraits (mkTok (TokenKind.kw "__reflect_pair") 0).kind =
      some ([2, 4] : List Expr).length ∧
    ∃ Trait, ReflectionTraitKind sampleTraits (mkTok (TokenKind.kw "__reflect_pair") 0).kind =
        some Trait ∧
      ParseReflectionTrait sample sampleTraits (startParser
          (mkTok (TokenKind.kw "__reflect_pair") 0 :: mkTok TokenKind.l_paren 1 :: toksTwoArgs)) =
        some (sample.ActOnReflectionTrait 0 Trait [2, 4] 5,
          { toks := [mkTok TokenKind.semi 6],
            log := [Event.ParseConstantExpression, Event.ParseConstantExpression,
              Event.ActOnReflectionTrait 0 Trait [2, 4] 5] }) :=
  ⟨rfl, rfl, by decide,
    (ParseReflectionTrait_well_formed sample sampleTraits
      (mkTok (TokenKind.kw "__reflect_pair") 0) (mkTok TokenKind.l_paren 1)
      (mkTok TokenKind.r_paren 5) toksTwoArgs [mkTok TokenKind.semi 6] [2, 4] rfl
      toksTwoArgs_ArgList rfl (by decide)).imp (fun _ h => ⟨h.1, h.2.1⟩)⟩

/-- C9 as stated fails: for `__reflect_index()`, a keyword of arity 1, the
parse fails with a log that holds the failed `ParseConstantExpression` only:
no arity diagnostic with expected 1 and actual 0 is emitted. -/
theorem ParseReflectionTrait_no_arguments_counterexample :
    ReflectionTraitArity sampleTraits (TokenKind.kw "__reflect_index") = some 1 ∧
    ParseReflectionTrait sample sampleTraits (startParser toksNoArgs) =
      some (ExprResult.ExprError,
        { toks := [mkTok TokenKind.semi 3], log := [Event.ParseConstantExpression] }) ∧
    ¬ ∃ r Loc plural ranges,
      ParseReflectionTrait sample sampleTraits (startParser toksNoArgs) = some r ∧
      Event.Diag Loc DiagID.err_type_trait_arity [1, 0, plural, 0] ranges ∈ r.2.log := by
  have heval : ParseReflectionTrait sample sampleTraits (startParser toksNoArgs) =
      some (ExprResult.ExprError,
        { toks := [mkTok TokenKind.semi 3], log := [Event.ParseConstantExpression] }) := by
    decide
  refine ⟨by decide, heval, ?_⟩
  rintro ⟨r, Loc, plural, ranges, hr, hmem⟩
  rw [heval] at hr
  cases hr
  simp at hmem

/-- C9, amended: for a trait keyword `K` followed by `( )`, where no constant
expression parses at the closing parenthesis, `ParseReflectionTrait` returns
`ExprError` in the state that `skipToEnd` leaves behind the failed
`ParseConstantExpression`: the failure is that of the first argument
expression.  When that failed parse consumed no token, the state is just past
the closing parenthesis and the log holds the `ParseConstantExpression` call
only.  In either case `ActOnReflectionTrait` is not called and no arity
diagnostic is emitted.  On any tokens, an arity diagnostic of
`ParseReflectionTrait` reports the arity of `K` as expected and an actual
count of at least one. -/
theorem ParseReflectionTrait_no_arguments (c : Collaborators) (defs : List TraitEntry)
    (kw lp rp : Token) (rest : List Token) (Arity : Nat)
    (hlp : lp.kind = TokenKind.l_paren) (hrp : rp.kind = TokenKind.r_paren)
    (hK : ReflectionTraitArity defs kw.kind = some Arity)
    (hexpr : (c.ParseConstantExpression (rp :: rest)).1 = ExprResult.ExprError) :
    ParseReflectionTrait c defs (startParser (kw :: lp :: rp :: rest)) =
      some (ExprResult.ExprError,
        (BalancedDelimiterTracker.skipToEnd { LOpen := lp.loc, LClose := 0 }
          { toks := (rp :: rest).drop (c.ParseConstantExpression (rp :: rest)).2,
            log := [Event.ParseConstantExpression] }).2) ∧
    ((c.ParseConstantExpression (rp :: rest)).2 = 0 →
      ParseReflectionTrait c defs (startParser (kw :: lp :: rp :: rest)) =
        some (ExprResult.ExprError,
          { toks := rest, log := [Event.ParseConstantExpression] })) ∧
    (∀ r, ParseReflectionTrait c defs (startParser (kw :: lp :: rp :: rest)) = some r →
      (∀ Loc Trait A RPLoc, Event.ActOnReflectionTrait Loc Trait A RPLoc ∉ r.2.log) ∧
      (∀ Loc args ranges, Event.Diag Loc DiagID.err_type_trait_arity args ranges ∉ r.2.log)) ∧
    (∀ toks1 r, ParseReflectionTrait c defs (startParser (kw :: toks1)) = some r →
      ∀ Loc (expected plural actual : Int) ranges,
        Event.Diag Loc DiagID.err_type_trait_arity [expected, 0, plural, actual] ranges ∈
          r.2.log →
        expected = Arity ∧ 1 ≤ actual) := by
  have hrun : ParseReflectionTrait c defs (startParser (kw :: lp :: rp :: rest)) =
      some (ExprResult.ExprError,
        (BalancedDelimiterTracker.skipToEnd { LOpen := lp.loc, LClose := 0 }
          { toks := (rp :: rest).drop (c.ParseConstantExpression (rp :: rest)).2,
            log := [Event.ParseConstantExpression] }).2) := by
    unfold ParseReflectionTrait
    simp only [ConsumeToken]
    have hopen : ((startParser (kw :: lp :: rp :: rest)).advance 1).Tok.kind =
        TokenKind.l_paren := hlp
    rw [expectAndConsume_ok _ _ _ hopen]
    simp only [Bool.false_eq_true, if_false]
    have hP : ((startParser (kw :: lp :: rp :: rest)).advance 1).advance 1 =
        Parser.mk (rp :: rest) [] := rfl
    rw [hP]
    have hloop : ParseReflectionTraitArgs c ((Parser.mk (rp :: rest) []).toks.length + 1)
        (Parser.mk (rp :: rest) []) [] 0 =
        ArgsResult.Invalid (((Parser.mk (rp :: rest) []).emit
          Event.ParseConstantExpression).advance (c.ParseConstantExpression (rp :: rest)).2) := by
      unfold ParseReflectionTraitArgs
      simp only [hexpr]
    rw [hloop]
    rfl
  refine ⟨hrun, ?_, ?_, ?_⟩
  · intro hzero
    rw [hrun, hzero]
    have hskip : SkipUntil 0 (rp :: rest) = rp :: rest := by
      simp [SkipUntil, hrp]
    have hclose : (Parser.mk (rp :: rest) [Event.ParseConstantExpression]).Tok.kind =
        TokenKind.r_paren := hrp
    simp only [BalancedDelimiterTracker.skipToEnd, List.drop_zero, hskip]
    rw [consumeClose_ok _ _ hclose]
    rfl
  · intro r hr
    rw [hrun] at hr
    cases hr
    constructor
    · intro Loc Trait A RPLoc hmem
      rcases skipToEnd_log _ _ _ hmem with h1 | ⟨_, h1⟩ | ⟨_, h1⟩ <;> simp at h1
    · intro Loc args ranges hmem
      rcases skipToEnd_log _ _ _ hmem with h1 | ⟨_, h1⟩ | ⟨_, h1⟩ <;> simp at h1
  · intro toks1 r hr Loc expected plural actual ranges hmem
    obtain ⟨Arity1, actual1, h1, h2, -, h4⟩ :=
      (ParseReflectionTrait_events c defs (kw :: toks1) r hr).2 Loc _ ranges hmem
    simp only [List.headD_cons] at h1
    rw [hK] at h1
    cases h1
    simp only [List.cons.injEq, and_true, true_and] at h4
    obtain ⟨h5, -, h6⟩ := h4
    subst h5 h6
    exact ⟨rfl, by exact_mod_cast h2⟩

/-- C9, amended, on `__reflect_index()`: the parse fails just past the
closing parenthesis, having called `ParseConstantExpression` only. -/
theorem ParseReflectionTrait_no_arguments_witness :
    (mkTok TokenKind.l_paren 1).kind = TokenKind.l_paren ∧
    (mkTok TokenKind.r_paren 2).kind = TokenKind.r_paren ∧
    ReflectionTraitArity sampleTraits (mkTok (TokenKind.kw "__reflect_index") 0).kind = some 1 ∧
    (sample.ParseConstantExpression [mkTok TokenKind.r_paren 2, mkTok TokenKind.semi 3]).1 =
      ExprResult.ExprError ∧
    ParseReflectionTrait sample sampleTraits (startParser toksNoArgs) =
      some (ExprResult.ExprError,
        { toks := [mkTok TokenKind.semi 3], log := [Event.ParseConstantExpression] }) :=
  ⟨rfl, rfl, by decide, by decide,
    (ParseReflectionTrait_no_arguments sample sampleTraits
      (mkTok (TokenKind.kw "__reflect_index") 0) (mkTok TokenKind.l_paren 1)
      (mkTok TokenKind.r_paren 2) [mkTok TokenKind.semi 3] 1 rfl rfl (by decide)
      (by decide)).2.1 (by decide)⟩

/-! ## Theorems: the library tests -/

/-- The loop of `count_members` from position `pos` to the end position
`len` of the same container takes `len - pos` steps, when the count stays
within `int`. -/
theorem count_members_loop_eq (D : Handle) (len : Nat) :
    ∀ (fuel pos : Nat) (n : Int), pos ≤ len → len - pos < fuel →
      n + ((len - pos : Nat) : Int) ≤ INT_MAX →
      count_members_loop fuel { container := D, position := pos }
        { container := D, position := len } n = some (n + ((len - pos : Nat) : Int)) := by
  intro fuel
  induction fuel with
  | zero => intro pos n _ h; simp at h
  | succ fuel ih =>
    intro pos n hle hfuel hmax
    unfold count_members_loop
    by_cases hpos : pos = len
    · subst hpos
      simp
    · have hne : ({ container := D, position := pos } : MetaIterator) ≠
          { container := D, position := len } := by
        intro h
        apply hpos
        simpa using h
      rw [if_pos hne]
      have h1 : len - pos = (len - (pos + 1)) + 1 := by omega
      have hn : n ≠ INT_MAX := by
        intro hn
        rw [h1, hn] at hmax
        push_cast at hmax
        omega
      rw [if_neg hn]
      have hmax1 : (n + 1) + ((len - (pos + 1) : Nat) : Int) ≤ INT_MAX := by
        rw [h1] at hmax
        push_cast at hmax
        omega
      have := ih (pos + 1) (n + 1) (by omega) (by omega) hmax1
      simp only [MetaIterator.incr]
      rw [this, h1]
      push_cast
      ring_nf

/-- At `INT_MAX` one more step of the loop of `count_members` has no value. -/
theorem count_members_loop_overflow (fuel : Nat) (first last : MetaIterator)
    (h : first ≠ last) : count_members_loop (fuel + 1) first last INT_MAX = none := by
  simp [count_members_loop, h]

/-- C7: for every container entity `D` (namespace, class or enum) of a
declaration table with `n` direct member declarations, `n` within the range
of the `int` counter (`n < 2^31`), `count_members` of the reflection of `D`
ends, for every fuel above `n`, and returns exactly `n`. -/
theorem count_members_eq (tbl : DeclTable) (D : Handle) (d : Declaration) (fuel : Nat)
    (hD : tbl[D]? = some d)
    (hkind : d.kind = EntityKind.namespace_decl ∨ d.kind = EntityKind.class_decl ∨
      d.kind = EntityKind.enum_decl)
    (hint : d.members.length < 2 ^ 31)
    (hfuel : d.members.length < fuel) :
    count_members tbl fuel (MetaObject.entity D) = some (d.members.length : Int) := by
  have hcont : d.kind.isContainer = true := by
    rcases hkind with h | h | h <;> simp [h, EntityKind.isContainer]
  have hmax : (0 : Int) + ((d.members.length - 0 : Nat) : Int) ≤ INT_MAX := by
    simp only [INT_MAX, Nat.sub_zero, zero_add]
    have : (d.members.length : Int) < 2 ^ 31 := by exact_mod_cast hint
    omega
  unfold count_members
  simp only [begin_, end_, hD, hcont, if_true]
  rw [count_members_loop_eq D d.members.length fuel 0 0 (Nat.zero_le _)
    (by simpa using hfuel) hmax]
  simp

/-- C7 on iterator.cpp: namespace `N` with `f1` to `f4` counts 4. -/
theorem count_members_eq_witness :
    iteratorDecls[0]? = some
      { kind := EntityKind.namespace_decl, name := "N", value := 0, parent := none,
        members := [1, 2, 3, 4] } ∧
    ([1, 2, 3, 4] : List Handle).length < 2 ^ 31 ∧
    ([1, 2, 3, 4] : List Handle).length < 5 ∧
    count_members iteratorDecls 5 (MetaObject.entity 0) = some 4 :=
  ⟨rfl, by decide, by decide,
    count_members_eq iteratorDecls 0
      { kind := EntityKind.namespace_decl, name := "N", value := 0, parent := none,
        members := [1, 2, 3, 4] } 5 rfl (Or.inl rfl) (by decide) (by decide)⟩

theorem nextIn_append (e : Handle) (pre suf : List Handle) (h : e ∉ pre) :
    nextIn e (pre ++ e :: suf) = firstObject suf := by
  induction pre with
  | nil => cases suf <;> simp [nextIn, firstObject]
  | cons p pre ih =>
    have hp : p ≠ e := fun hpe => h (by simp [hpe])
    have hpre : e ∉ pre := fun hm => h (by simp [hm])
    simp only [List.cons_append, nextIn, hp, if_false]
    exact ih hpre

theorem IsEnumWith.decl {tbl : DeclTable} {E : Handle} {es : List Handle}
    (h : IsEnumWith tbl E es) :
    ∃ d, tbl[E]? = some d ∧ d.kind = EntityKind.enum_decl ∧ d.members = es := by
  obtain ⟨h1, h2, -, -⟩ := h
  cases hE : tbl[E]? with
  | none => simp [hE] at h1
  | some d =>
    simp only [hE, Option.map_some', Option.some.injEq] at h1 h2
    exact ⟨d, rfl, h1, h2⟩

theorem IsEnumWith.enumerator {tbl : DeclTable} {E : Handle} {es : List Handle}
    (h : IsEnumWith tbl E es) (e : Handle) (he : e ∈ es) :
    ∃ d, tbl[e]? = some d ∧ d.kind = EntityKind.enumerator_decl ∧ d.parent = some E := by
  obtain ⟨-, -, -, h3⟩ := h
  obtain ⟨h1, h2⟩ := h3 e he
  cases hd : tbl[e]? with
  | none => simp [hd] at h1
  | some d =>
    simp only [hd, Option.map_some', Option.some.injEq] at h1 h2
    exact ⟨d, rfl, h1, h2⟩

/-- The walk from any enumerator of the enum to the end: it visits the
remaining enumerators in order and returns the name of the first of them
whose value is `val`. -/
theorem find_enumerator_walk (tbl : DeclTable) (E : Handle) (es : List Handle) (val : Int)
    (hE : IsEnumWith tbl E es) :
    ∀ (suf pre : List Handle) (fuel : Nat), pre ++ suf = es → suf.length < fuel →
      find_enumerator_visits tbl fuel (firstObject suf) = some (suf.map MetaObject.entity) ∧
      find_enumerator tbl fuel (firstObject suf) val =
        some (((suf.filterMap (fun e => tbl[e]?)).find? (fun d => d.value = val)).map
          (fun d => d.name)) := by
  intro suf
  induction suf with
  | nil =>
    intro pre fuel _ hfuel
    cases fuel with
    | zero => simp at hfuel
    | succ fuel => simp [firstObject, find_enumerator_visits, find_enumerator, is_null]
  | cons e suf ih =>
    intro pre fuel hes hfuel
    cases fuel with
    | zero => simp at hfuel
    | succ fuel =>
      have hmem : e ∈ es := by rw [← hes]; simp
      obtain ⟨d, hd, hkind, hparent⟩ := hE.enumerator e hmem
      obtain ⟨dE, hdE, -, hmembers⟩ := hE.decl
      have hnodup : (pre ++ e :: suf).Nodup := by rw [hes]; exact hE.2.2.1
      have hpre : e ∉ pre := by
        intro hin
        have := List.nodup_append.mp hnodup
        exact this.2.2 hin (by simp)
      have hnext : next tbl (MetaObject.entity e) = some (firstObject suf) := by
        simp only [next, hd, hkind, if_true, hparent, hdE, Option.map_some', hmembers]
        rw [← hes, nextIn_append e pre suf hpre]
      have hval : valueof tbl (MetaObject.entity e) = some d.value := by
        simp [valueof, hd, hkind]
      have hname : name tbl (MetaObject.entity e) = some d.name := by
        simp [name, hd]
      obtain ⟨ih1, ih2⟩ := ih (pre ++ [e]) fuel (by simpa using hes)
        (by simp at hfuel; omega)
      have hf : firstObject (e :: suf) = MetaObject.entity e := rfl
      rw [hf]
      constructor
      · simp [find_enumerator_visits, is_null, hnext, ih1]
      · simp only [find_enumerator, is_null, Bool.not_false, if_true, hval, hname,
          hnext, ih2, List.filterMap_cons, hd]
        by_cases hv : d.value = val
        · simp [hv]
        · simp [hv]

/-- C8: for every enum `E` of a declaration table with enumerators `es` in
declaration order and every value `val`, with fuel above the number of
enumerators: the walk from `front(reflexpr(E))` along `next` until `is_null`
visits exactly the enumerators `es`, each once, in declaration order, and
`enum_to_string` returns the name of the first enumerator whose value is
`val`, and a null pointer when there is none. -/
theorem enum_to_string_eq (tbl : DeclTable) (E : Handle) (es : List Handle) (val : Int)
    (fuel : Nat) (hE : IsEnumWith tbl E es) (hfuel : es.length < fuel) :
    es.Nodup ∧
    (∃ X, front tbl (MetaObject.entity E) = some X ∧
      find_enumerator_visits tbl fuel X = some (es.map MetaObject.entity)) ∧
    enum_to_string tbl fuel E val =
      some (((es.filterMap (fun e => tbl[e]?)).find? (fun d => d.value = val)).map
        (fun d => d.name)) := by
  obtain ⟨dE, hdE, hkind, hmembers⟩ := hE.decl
  have hfront : front tbl (MetaObject.entity E) = some (firstObject es) := by
    simp only [front, hdE, hkind, EntityKind.isContainer, if_true, hmembers]
    cases es <;> rfl
  obtain ⟨h1, h2⟩ := find_enumerator_walk tbl E es val hE es [] fuel rfl hfuel
  refine ⟨hE.2.2.1, ⟨_, hfront, h1⟩, ?_⟩
  simp only [enum_to_string, hfront, h2]

/-- C8 on to_string.cpp: `enum E { X, A, B, C }` yields "A", "B", "C" for
`A`, `B`, `C`, and a null pointer for a value no enumerator has. -/
theorem enum_to_string_eq_witness :
    IsEnumWith toStringDecls 0 [1, 2, 3, 4] ∧
    ([1, 2, 3, 4] : List Handle).length < 5 ∧
    enum_to_string toStringDecls 5 0 1 = some (some "A") ∧
    enum_to_string toStringDecls 5 0 2 = some (some "B") ∧
    enum_to_string toStringDecls 5 0 3 = some (some "C") ∧
    enum_to_string toStringDecls 5 0 7 = some none :=
  ⟨by decide, by decide,
    (enum_to_string_eq toStringDecls 0 [1, 2, 3, 4] 1 5 (by decide) (by decide)).2.2,
    (enum_to_string_eq toStringDecls 0 [1, 2, 3, 4] 2 5 (by decide) (by decide)).2.2,
    (enum_to_string_eq toStringDecls 0 [1, 2, 3, 4] 3 5 (by decide) (by decide)).2.2,
    (enum_to_string_eq toStringDecls 0 [1, 2, 3, 4] 7 5 (by decide) (by decide)).2.2⟩

end ClangReflect
